import Mathlib

/-!
Verification of the artifact resolution and synchronization engine of
`scripts/fetch_mandarin_agents.py` (classes `Agent`, `FileOperation`,
`FileOrganizer`) against its natural-language specification.

Part 1 models the synchronization executor (`FileOrganizer.execute_operations`)
over a flat file-system model: a file system is an association list from
paths (segment lists) to byte contents; directories are implicit (a path is a
directory when some file lies strictly below it), matching the way the Python
code only ever observes the tree through `exists`, `is_dir`, `read_bytes`,
`mkdir`, `rmtree`, `copytree` and `copy2`.

Part 2 models the resolver (`FileOrganizer.resolve_files` and its helpers)
over strings as character lists, with Python `str.replace` semantics spelled
out explicitly, since the charter fallback logic of `_resolve_charter` works
by global string replacement.
-/

/-- A file-system path, as a list of segments. -/
abbrev FPath := List String

/-- File contents, as a list of bytes. -/
abbrev Bytes := List Nat

/-- A flat file system: files with their contents.  Later entries may be
shadowed by earlier ones; `lookupFile` takes the first match. -/
abbrev FS := List (FPath × Bytes)

/-- Content of the file at `p`, if any (`Path.read_bytes`). -/
def lookupFile : FS → FPath → Option Bytes
  | [], _ => none
  | (q, c) :: fs, p => if q = p then some c else lookupFile fs p

/-- `pathLe p q` holds when `p` is an initial segment of `q`
(so the node `p` lies on the directory chain leading to `q`). -/
def pathLe : FPath → FPath → Bool
  | [], _ => true
  | _, [] => false
  | a :: p, b :: q => decide (a = b) && pathLe p q

/-- `p` is a strict initial segment of `q`. -/
def pathLt (p q : FPath) : Bool := pathLe p q && decide (p ≠ q)

/-- `p` designates a directory: some file lies strictly below it
(`Path.is_dir` on the flat model, which has no empty directories). -/
def isDirF (fs : FS) (p : FPath) : Bool :=
  fs.any (fun e => pathLt p e.1)

/-- `Path.exists`: a file or a directory is present at `p`. -/
def pathExistsF (fs : FS) (p : FPath) : Bool :=
  (lookupFile fs p).isSome || isDirF fs p

/-- Overwrite/create the file at `p` (`shutil.copy2` target side); the new
entry shadows any previous entry at the same path. -/
def writeFile (fs : FS) (p : FPath) (c : Bytes) : FS := (p, c) :: fs

/-- `shutil.rmtree p`: remove everything at or below `p`. -/
def removeTree (fs : FS) (p : FPath) : FS :=
  fs.filter (fun e => !(pathLe p e.1))

/-- `shutil.copytree src dst`: every file `src ++ q` is copied to `dst ++ q`. -/
def copyTree (fs : FS) (src dst : FPath) : FS :=
  (fs.filterMap (fun e =>
    if pathLe src e.1 then some (dst ++ e.1.drop src.length, e.2) else none)) ++ fs

/-- All initial segments of `p`, from `[]` up to `p` itself. -/
def segsOf : FPath → List FPath
  | [] => [[]]
  | a :: p => [] :: (segsOf p).map (a :: ·)

/-- `Path.mkdir(parents=True, exist_ok=True)` on directory `p` raises iff a
regular file sits at `p` or at one of its ancestors (a file blocks the
directory chain; existing directories are tolerated by `exist_ok`). -/
def mkdirFails (fs : FS) (p : FPath) : Bool :=
  (segsOf p).any (fun q => (lookupFile fs q).isSome)

/-- `FileOperation.status` values. -/
inductive OpStatus where
  | pending
  | new
  | updated
  | unchanged
  | error
  | module_replaced
deriving DecidableEq, Repr

/-- `FileOperation`: a planned copy from `source` to `destination`. -/
structure FileOperation where
  source : FPath
  destination : FPath
  status : OpStatus := OpStatus.pending
deriving DecidableEq, Repr

/-- `FileOperation.is_module`: the source designates a directory.  Evaluated
against the live file system, as in the Python property. -/
def is_module (fs : FS) (op : FileOperation) : Bool := isDirF fs op.source

/-- Execute one operation (one iteration of the loop in
`FileOrganizer.execute_operations`, lines 440-472).  Returns the file system
after the operation, the terminal status, and the list of successive values
written to `op.status` (the Python code mutates the field in place; the last
write is the terminal status).  Any I/O failure is caught by the
`except` clause, which writes `error`. -/
def execOne (fs : FS) (op : FileOperation) : FS × OpStatus × List OpStatus :=
  if is_module fs op then
    -- module replacement: delete existing, copy new
    if pathExistsF fs op.destination then
      if (lookupFile fs op.destination).isSome then
        -- shutil.rmtree on a regular file raises
        (fs, OpStatus.error, [OpStatus.error])
      else
        let fs1 := removeTree fs op.destination
        if mkdirFails fs1 op.destination.dropLast then
          (fs1, OpStatus.error, [OpStatus.error])
        else if !(isDirF fs1 op.source) then
          -- shutil.copytree raises when the source is no longer a directory
          (fs1, OpStatus.error, [OpStatus.error])
        else
          (copyTree fs1 op.source op.destination,
           OpStatus.module_replaced, [OpStatus.module_replaced])
    else
      if mkdirFails fs op.destination.dropLast then
        (fs, OpStatus.error, [OpStatus.error])
      else if !(isDirF fs op.source) then
        (fs, OpStatus.error, [OpStatus.error])
      else
        (copyTree fs op.source op.destination,
         OpStatus.module_replaced, [OpStatus.module_replaced])
  else
    -- single file copy
    if mkdirFails fs op.destination.dropLast then
      (fs, OpStatus.error, [OpStatus.error])
    else if pathExistsF fs op.destination then
      match lookupFile fs op.destination, lookupFile fs op.source with
      | some db, some sb =>
        -- compare byte content, then copy source over destination
        let st := if db = sb then OpStatus.unchanged else OpStatus.updated
        (writeFile fs op.destination sb, st, [st])
      | _, _ =>
        -- read_bytes raised: destination is a directory, or source unreadable
        (fs, OpStatus.error, [OpStatus.error])
    else
      match lookupFile fs op.source with
      | some sb => (writeFile fs op.destination sb, OpStatus.new, [OpStatus.new])
      | none =>
        -- status was already set to `new`; shutil.copy2 then raises and the
        -- except clause overwrites the status with `error`
        (fs, OpStatus.error, [OpStatus.new, OpStatus.error])

/-- The statistics keys, as initialized on line 436 of the script. -/
def keyNew : String := "new"
def keyUpdated : String := "updated"
def keyUnchanged : String := "unchanged"
def keyError : String := "error"
def keyModulesReplaced : String := "modules_replaced"
def keyPending : String := "pending"

/-- `stats = {"new": 0, "updated": 0, "unchanged": 0, "error": 0,
"modules_replaced": 0}`. -/
def initStats : List (String × Nat) :=
  [(keyNew, 0), (keyUpdated, 0), (keyUnchanged, 0), (keyError, 0),
   (keyModulesReplaced, 0)]

/-- `stats[k] += 1`. -/
def bump (stats : List (String × Nat)) (k : String) : List (String × Nat) :=
  stats.map (fun e => if e.1 = k then (e.1, e.2 + 1) else e)

/-- The statistics key incremented for a given terminal status: the file
branch runs `stats[op.status] += 1` while the module branch runs
`stats["modules_replaced"] += 1` (status `module_replaced`). -/
def statusKey : OpStatus → String
  | OpStatus.new => keyNew
  | OpStatus.updated => keyUpdated
  | OpStatus.unchanged => keyUnchanged
  | OpStatus.error => keyError
  | OpStatus.module_replaced => keyModulesReplaced
  | OpStatus.pending => keyPending

/-- The executor loop: thread the file system and the statistics through the
operations, recording each operation's terminal status. -/
def execOpsAux : FS → List (String × Nat) → List FileOperation →
    FS × List FileOperation × List (String × Nat)
  | fs, stats, [] => (fs, [], stats)
  | fs, stats, op :: rest =>
    let step := execOne fs op
    let res := execOpsAux step.1 (bump stats (statusKey step.2.1)) rest
    (res.1, { op with status := step.2.1 } :: res.2.1, res.2.2)

/-- `FileOrganizer.execute_operations`: returns the final file system, the
operations with their terminal statuses, and the statistics dictionary. -/
def execute_operations (fs : FS) (ops : List FileOperation) :
    FS × List FileOperation × List (String × Nat) :=
  execOpsAux fs initStats ops

/-- Number of operations with the given terminal status. -/
def countStatus (ops : List FileOperation) (s : OpStatus) : Nat :=
  (ops.filter (fun op => decide (op.status = s))).length

/-! ### Basic lemmas about paths and the flat file system -/

theorem pathLe_refl (p : FPath) : pathLe p p = true := by
  induction p with
  | nil => rfl
  | cons a p ih => simp [pathLe, ih]

theorem ne_of_pathLe_false {p q : FPath} (h : pathLe p q = false) : p ≠ q := by
  intro hpq
  subst hpq
  rw [pathLe_refl] at h
  exact Bool.true_eq_false.mp h

theorem pathLe_iff {p q : FPath} : pathLe p q = true ↔ ∃ t, q = p ++ t := by
  induction p generalizing q with
  | nil => simp [pathLe]
  | cons a p ih =>
    cases q with
    | nil =>
      simp [pathLe]
    | cons b q =>
      simp only [pathLe, Bool.and_eq_true, decide_eq_true_eq, ih]
      constructor
      · rintro ⟨rfl, t, rfl⟩
        exact ⟨t, rfl⟩
      · rintro ⟨t, h⟩
        rw [List.cons_append] at h
        cases h
        exact ⟨rfl, t, rfl⟩

theorem pathLe_append (p t : FPath) : pathLe p (p ++ t) = true :=
  pathLe_iff.mpr ⟨t, rfl⟩

theorem pathLe_trans {p q r : FPath} (h1 : pathLe p q = true)
    (h2 : pathLe q r = true) : pathLe p r = true := by
  rcases pathLe_iff.mp h1 with ⟨t1, rfl⟩
  rcases pathLe_iff.mp h2 with ⟨t2, rfl⟩
  rw [List.append_assoc]
  exact pathLe_append p (t1 ++ t2)

/-- A node on the chain to a descendant of `s` is comparable with `s`. -/
theorem pathLe_append_cases {d s q : FPath} (h : pathLe d (s ++ q) = true) :
    pathLe d s = true ∨ pathLe s d = true := by
  induction d generalizing s with
  | nil => exact Or.inl (by simp [pathLe])
  | cons a d ih =>
    cases s with
    | nil => exact Or.inr rfl
    | cons b s =>
      rw [List.cons_append] at h
      simp only [pathLe, Bool.and_eq_true, decide_eq_true_eq] at h ⊢
      rcases h with ⟨rfl, h⟩
      rcases ih h with h' | h'
      · exact Or.inl ⟨rfl, h'⟩
      · exact Or.inr ⟨rfl, h'⟩

theorem pathLt_self (p : FPath) : pathLt p p = false := by
  simp [pathLt]

theorem pathLe_of_pathLt {p q : FPath} (h : pathLt p q = true) :
    pathLe p q = true := by
  simp only [pathLt, Bool.and_eq_true] at h
  exact h.1

theorem dropLast_append_ne_nil {q t : FPath} (h : t ≠ []) :
    (q ++ t).dropLast = q ++ t.dropLast := by
  induction q with
  | nil => rfl
  | cons a q ih =>
    have hqt : q ++ t ≠ [] := by
      intro hq
      exact h (List.append_eq_nil.mp hq).2
    rw [List.cons_append, List.dropLast_cons_of_ne_nil hqt, ih, List.cons_append]

theorem pathLt_pathLe_dropLast {q p : FPath} (h : pathLt q p = true) :
    pathLe q p.dropLast = true := by
  simp only [pathLt, Bool.and_eq_true, decide_eq_true_eq] at h
  rcases h with ⟨hle, hne⟩
  rcases pathLe_iff.mp hle with ⟨t, rfl⟩
  cases t with
  | nil => simp at hne
  | cons x t =>
    rw [dropLast_append_ne_nil (List.cons_ne_nil x t)]
    exact pathLe_append q _

theorem mem_segsOf_iff {q p : FPath} : q ∈ segsOf p ↔ pathLe q p = true := by
  induction p generalizing q with
  | nil =>
    cases q with
    | nil => simp [segsOf, pathLe]
    | cons b q => simp [segsOf, pathLe]
  | cons a p ih =>
    cases q with
    | nil => simp [segsOf, pathLe]
    | cons b q =>
      simp only [segsOf, List.mem_cons, List.mem_map]
      constructor
      · rintro (h | ⟨q', hq', h⟩)
        · exact absurd h (List.cons_ne_nil b q)
        · cases h
          simp [pathLe, ih.mp hq']
      · intro h
        simp only [pathLe, Bool.and_eq_true, decide_eq_true_eq] at h
        exact Or.inr ⟨q, ih.mpr h.2, by rw [h.1]⟩

theorem isDirF_iff {fs : FS} {p : FPath} :
    isDirF fs p = true ↔ ∃ e ∈ fs, pathLt p e.1 = true := by
  simp [isDirF, List.any_eq_true]

theorem isDirF_cons {e : FPath × Bytes} {fs : FS} {p : FPath} :
    isDirF (e :: fs) p = (pathLt p e.1 || isDirF fs p) := by
  simp [isDirF]

theorem lookupFile_cons {q : FPath} {c : Bytes} {fs : FS} {p : FPath} :
    lookupFile ((q, c) :: fs) p = if q = p then some c else lookupFile fs p := rfl

theorem mkdirFails_eq_false_iff {fs : FS} {p : FPath} :
    mkdirFails fs p = false ↔ ∀ q ∈ segsOf p, lookupFile fs q = none := by
  rw [← Bool.not_eq_true, mkdirFails, List.any_eq_true]
  push_neg
  constructor
  · intro h q hq
    have := h q hq
    simpa [Option.isSome_iff_exists, Option.eq_none_iff_forall_not_mem] using this
  · intro h q hq
    simp [h q hq]

theorem lookupFile_removeTree {fs : FS} {d p : FPath} :
    lookupFile (removeTree fs d) p =
      if pathLe d p = true then none else lookupFile fs p := by
  induction fs with
  | nil => simp [removeTree, lookupFile]
  | cons e fs ih =>
    obtain ⟨q, c⟩ := e
    simp only [removeTree, List.filter_cons] at ih ⊢
    by_cases hdq : pathLe d q = true
    · by_cases hqp : q = p
      · subst hqp
        simp [hdq, lookupFile, ih]
      · simp [hdq, lookupFile, hqp, ih]
    · by_cases hqp : q = p
      · subst hqp
        simp only [Bool.not_eq_true'] at hdq
        simp [hdq, lookupFile]
      · simp [hdq, lookupFile, hqp, ih]

theorem lookupFile_append {fs1 fs2 : FS} {p : FPath} :
    lookupFile (fs1 ++ fs2) p =
      match lookupFile fs1 p with
      | some c => some c
      | none => lookupFile fs2 p := by
  induction fs1 with
  | nil => simp [lookupFile]
  | cons e fs ih =>
    obtain ⟨q, c⟩ := e
    by_cases hqp : q = p
    · simp [lookupFile, hqp]
    · simp [lookupFile, hqp, ih]

theorem lookupFile_writeFile {fs : FS} {p q : FPath} {c : Bytes} :
    lookupFile (writeFile fs p c) q = if p = q then some c else lookupFile fs q := rfl

theorem isDirF_writeFile {fs : FS} {p q : FPath} {c : Bytes} :
    isDirF (writeFile fs p c) q = (pathLt q p || isDirF fs q) := by
  simp [writeFile, isDirF]

theorem lookupFile_filterMapUnder (fs : FS) (src dst q : FPath) :
    lookupFile (fs.filterMap (fun e =>
      if pathLe src e.1 then some (dst ++ e.1.drop src.length, e.2) else none))
      (dst ++ q) = lookupFile fs (src ++ q) := by
  induction fs with
  | nil => rfl
  | cons e fs ih =>
    obtain ⟨p, c⟩ := e
    rw [List.filterMap_cons]
    by_cases hsp : pathLe src p = true
    · rcases pathLe_iff.mp hsp with ⟨t, rfl⟩
      have hdrop : (src ++ t).drop src.length = t := by
        rw [List.drop_left]
      simp only [hsp, if_true, hdrop]
      by_cases htq : t = q
      · subst htq
        simp [lookupFile_cons]
      · have h1 : dst ++ t ≠ dst ++ q := fun h => htq (List.append_cancel_left h)
        have h2 : src ++ t ≠ src ++ q := fun h => htq (List.append_cancel_left h)
        rw [lookupFile_cons, if_neg h1, ih, lookupFile_cons, if_neg h2]
    · have hne : p ≠ src ++ q := by
        intro h
        subst h
        exact hsp (pathLe_append src q)
      have hred : (if pathLe src p = true then
          some (dst ++ p.drop src.length, c) else none) = none := if_neg hsp
      simp only [hred]
      rw [ih, lookupFile_cons, if_neg hne]

theorem lookupFile_copyTree {fs : FS} {src dst : FPath} (q : FPath)
    (hnone : lookupFile fs (dst ++ q) = none) :
    lookupFile (copyTree fs src dst) (dst ++ q) = lookupFile fs (src ++ q) := by
  rw [copyTree, lookupFile_append, lookupFile_filterMapUnder]
  cases h : lookupFile fs (src ++ q) <;> simp [hnone, h]

/-! ### Claim C5: the statistics contract of `execute_operations` -/

/-- Number of statuses equal to `s` in a status list. -/
def countSt (sts : List OpStatus) (s : OpStatus) : Nat :=
  (sts.filter (fun x => decide (x = s))).length

theorem countSt_cons_self {s : OpStatus} {rest : List OpStatus} :
    countSt (s :: rest) s = countSt rest s + 1 := by
  simp [countSt, List.filter_cons]

theorem countSt_cons_ne {s' s : OpStatus} {rest : List OpStatus} (h : s' ≠ s) :
    countSt (s' :: rest) s = countSt rest s := by
  simp [countSt, List.filter_cons, h]

theorem execOpsAux_stats (ops : List FileOperation) :
    ∀ (fs : FS) (stats : List (String × Nat)),
    (execOpsAux fs stats ops).2.2 =
      List.foldl (fun s st => bump s (statusKey st)) stats
        ((execOpsAux fs stats ops).2.1.map (fun op => op.status)) := by
  induction ops with
  | nil => intro fs stats; rfl
  | cons op rest ih =>
    intro fs stats
    simp only [execOpsAux, List.map_cons, List.foldl_cons]
    exact ih _ _

theorem foldl_bump_init (sts : List OpStatus) :
    ∀ a b c d e : Nat,
    List.foldl (fun s st => bump s (statusKey st))
      [(keyNew, a), (keyUpdated, b), (keyUnchanged, c), (keyError, d),
       (keyModulesReplaced, e)] sts =
    [(keyNew, a + countSt sts OpStatus.new),
     (keyUpdated, b + countSt sts OpStatus.updated),
     (keyUnchanged, c + countSt sts OpStatus.unchanged),
     (keyError, d + countSt sts OpStatus.error),
     (keyModulesReplaced, e + countSt sts OpStatus.module_replaced)] := by
  induction sts with
  | nil =>
    intro a b c d e
    simp [countSt]
  | cons st rest ih =>
    intro a b c d e
    rw [List.foldl_cons]
    cases st
    case pending =>
      rw [show bump [(keyNew, a), (keyUpdated, b), (keyUnchanged, c), (keyError, d),
            (keyModulesReplaced, e)] (statusKey OpStatus.pending) =
          [(keyNew, a), (keyUpdated, b), (keyUnchanged, c), (keyError, d),
            (keyModulesReplaced, e)] from rfl, ih]
      rw [countSt_cons_ne (by decide), countSt_cons_ne (by decide),
        countSt_cons_ne (by decide), countSt_cons_ne (by decide),
        countSt_cons_ne (by decide)]
    case new =>
      rw [show bump [(keyNew, a), (keyUpdated, b), (keyUnchanged, c), (keyError, d),
            (keyModulesReplaced, e)] (statusKey OpStatus.new) =
          [(keyNew, a + 1), (keyUpdated, b), (keyUnchanged, c), (keyError, d),
            (keyModulesReplaced, e)] from rfl, ih]
      rw [countSt_cons_self, countSt_cons_ne (by decide), countSt_cons_ne (by decide),
        countSt_cons_ne (by decide), countSt_cons_ne (by decide)]
      simp only [List.cons.injEq, Prod.mk.injEq, eq_self_iff_true, true_and, and_true]
      omega
    case updated =>
      rw [show bump [(keyNew, a), (keyUpdated, b), (keyUnchanged, c), (keyError, d),
            (keyModulesReplaced, e)] (statusKey OpStatus.updated) =
          [(keyNew, a), (keyUpdated, b + 1), (keyUnchanged, c), (keyError, d),
            (keyModulesReplaced, e)] from rfl, ih]
      rw [countSt_cons_self, countSt_cons_ne (by decide), countSt_cons_ne (by decide),
        countSt_cons_ne (by decide), countSt_cons_ne (by decide)]
      simp only [List.cons.injEq, Prod.mk.injEq, eq_self_iff_true, true_and, and_true]
      omega
    case unchanged =>
      rw [show bump [(keyNew, a), (keyUpdated, b), (keyUnchanged, c), (keyError, d),
            (keyModulesReplaced, e)] (statusKey OpStatus.unchanged) =
          [(keyNew, a), (keyUpdated, b), (keyUnchanged, c + 1), (keyError, d),
            (keyModulesReplaced, e)] from rfl, ih]
      rw [countSt_cons_self, countSt_cons_ne (by decide), countSt_cons_ne (by decide),
        countSt_cons_ne (by decide), countSt_cons_ne (by decide)]
      simp only [List.cons.injEq, Prod.mk.injEq, eq_self_iff_true, true_and, and_true]
      omega
    case error =>
      rw [show bump [(keyNew, a), (keyUpdated, b), (keyUnchanged, c), (keyError, d),
            (keyModulesReplaced, e)] (statusKey OpStatus.error) =
          [(keyNew, a), (keyUpdated, b), (keyUnchanged, c), (keyError, d + 1),
            (keyModulesReplaced, e)] from rfl, ih]
      rw [countSt_cons_self, countSt_cons_ne (by decide), countSt_cons_ne (by decide),
        countSt_cons_ne (by decide), countSt_cons_ne (by decide)]
      simp only [List.cons.injEq, Prod.mk.injEq, eq_self_iff_true, true_and, and_true]
      omega
    case module_replaced =>
      rw [show bump [(keyNew, a), (keyUpdated, b), (keyUnchanged, c), (keyError, d),
            (keyModulesReplaced, e)] (statusKey OpStatus.module_replaced) =
          [(keyNew, a), (keyUpdated, b), (keyUnchanged, c), (keyError, d),
            (keyModulesReplaced, e + 1)] from rfl, ih]
      rw [countSt_cons_self, countSt_cons_ne (by decide), countSt_cons_ne (by decide),
        countSt_cons_ne (by decide), countSt_cons_ne (by decide)]
      simp only [List.cons.injEq, Prod.mk.injEq, eq_self_iff_true, true_and, and_true]
      omega

theorem countStatus_eq_countSt (ops : List FileOperation) (s : OpStatus) :
    countStatus ops s = countSt (ops.map (fun op => op.status)) s := by
  induction ops with
  | nil => rfl
  | cons op rest ih =>
    by_cases h : op.status = s
    · simp [countStatus, countSt, List.filter_cons, h] at ih ⊢
      exact ih
    · simp [countStatus, countSt, List.filter_cons, h] at ih ⊢
      exact ih

/-- Claim C5, counterexample: the statistics dictionary returned by
`execute_operations` does not have the key set claimed by the specification.
Its fifth key is `"modules_replaced"` (line 436 of the script), not
`"module_replaced"`; the key `"module_replaced"` never occurs. -/
theorem execute_operations_stats_key_cex :
    ((execute_operations [] []).2.2.map Prod.fst ≠
      [keyNew, keyUpdated, keyUnchanged, keyError, "module_replaced"]) ∧
    (∀ e ∈ (execute_operations [] []).2.2, e.1 ≠ "module_replaced") ∧
    ((execute_operations [] []).2.2.map Prod.fst =
      [keyNew, keyUpdated, keyUnchanged, keyError, keyModulesReplaced]) := by
  decide

/-- Claim C5 (amended): for every list of operations, `execute_operations`
returns a statistics mapping whose keys are exactly the five counters
`new`, `updated`, `unchanged`, `error` and `modules_replaced` (the code's
spelling of the module counter), each equal to the number of operations that
ended in the corresponding terminal status (the `module_replaced` status is
tallied under the `modules_replaced` key). -/
theorem execute_operations_stats_contract (fs : FS) (ops : List FileOperation) :
    (execute_operations fs ops).2.2 =
      [(keyNew, countStatus (execute_operations fs ops).2.1 OpStatus.new),
       (keyUpdated, countStatus (execute_operations fs ops).2.1 OpStatus.updated),
       (keyUnchanged, countStatus (execute_operations fs ops).2.1 OpStatus.unchanged),
       (keyError, countStatus (execute_operations fs ops).2.1 OpStatus.error),
       (keyModulesReplaced,
        countStatus (execute_operations fs ops).2.1 OpStatus.module_replaced)] := by
  rw [execute_operations, execOpsAux_stats]
  rw [show initStats = [(keyNew, 0), (keyUpdated, 0), (keyUnchanged, 0), (keyError, 0),
    (keyModulesReplaced, 0)] from rfl]
  rw [foldl_bump_init]
  simp only [Nat.zero_add]
  rw [countStatus_eq_countSt, countStatus_eq_countSt, countStatus_eq_countSt,
    countStatus_eq_countSt, countStatus_eq_countSt]

/-! ### Claim C9: the status write discipline of the executor -/

/-- Claim C9, counterexample: when `shutil.copy2` fails after the operation
was already classified (modelled by a source that is no longer readable), the
status field is written twice: first `new`, then `error`.  The claimed
single write directly to the terminal value does not hold. -/
theorem execute_status_single_write_cex :
    (execOne [] { source := [("missing-src" : String)],
                  destination := [("dst-file" : String)] }).2.2 =
      [OpStatus.new, OpStatus.error] ∧
    (execOne [] { source := [("missing-src" : String)],
                  destination := [("dst-file" : String)] }).2.2.length ≠ 1 := by
  decide

/-- Claim C9 (amended): for every file system and operation, the executor
writes the status field at least once and at most twice: either a single
write of the terminal status, or — exactly when the copy fails after the
operation was classified `new` — a first write `new` followed by a final
write `error`.  The final write is the terminal status, which is never
`pending` and is not changed afterward. -/
theorem execute_status_write_trace (fs : FS) (op : FileOperation) :
    ((execOne fs op).2.2 = [(execOne fs op).2.1] ∨
      ((execOne fs op).2.2 = [OpStatus.new, OpStatus.error] ∧
        (execOne fs op).2.1 = OpStatus.error)) ∧
    (execOne fs op).2.1 ≠ OpStatus.pending := by
  simp only [execOne]
  repeat' split
  all_goals simp_all

/-! ### Claim C2: module replacement is destructive-before-constructive -/

theorem not_eq_true_of_false {b : Bool} (h : b = false) : ¬ b = true := by
  rw [h]
  exact Bool.false_ne_true

theorem eq_false_of_not_true {b : Bool} (h : ¬ b = true) : b = false := by
  cases b
  · rfl
  · exact absurd rfl h

theorem self_ne_append {p q : FPath} (hq : q ≠ []) : p ≠ p ++ q := by
  intro h
  have hl := congrArg List.length h
  simp only [List.length_append] at hl
  have : q.length = 0 := by omega
  exact hq (List.length_eq_zero.mp this)

theorem lookup_mem {fs : FS} {p : FPath} {c : Bytes}
    (h : lookupFile fs p = some c) : (p, c) ∈ fs := by
  induction fs with
  | nil => cases h
  | cons e fs ih =>
    obtain ⟨q, c'⟩ := e
    rw [lookupFile_cons] at h
    by_cases hqp : q = p
    · subst hqp
      rw [if_pos rfl] at h
      injection h with h
      subst h
      exact List.mem_cons_self _ _
    · rw [if_neg hqp] at h
      exact List.mem_cons_of_mem _ (ih h)

/-- Concrete file system for the C2 counterexample: the source directory `s`
holds a file `a`, and the destination `s/d` (inside the source!) already
holds a stale file `b`. -/
def c2fs : FS :=
  [([("s" : String), ("a" : String)], [0]),
   ([("s" : String), ("d" : String), ("b" : String)], [1])]

/-- The C2 counterexample operation: replace module `s/d` from source `s`. -/
def c2op : FileOperation :=
  { source := [("s" : String)],
    destination := [("s" : String), ("d" : String)] }

/-- Claim C2, counterexample: for an operation whose destination lies inside
the source directory, execution succeeds with status `module_replaced`, yet
afterwards the destination directory's contents do not equal the source
directory's contents: relative path `d/b` exists under the source beforehand
but not under the destination afterwards, and relative path `a` exists under
the source afterwards while the destination afterwards lacks a matching
`d/a` only at `a` — concretely, both the before- and the after-reading of
"destination contents equal source contents" fail. -/
theorem module_replace_destructive_cex :
    is_module c2fs c2op = true ∧
    (execOne c2fs c2op).2.1 = OpStatus.module_replaced ∧
    lookupFile c2fs (c2op.source ++ [("d" : String), ("b" : String)]) = some [1] ∧
    lookupFile (execOne c2fs c2op).1
      (c2op.destination ++ [("d" : String), ("b" : String)]) = none ∧
    lookupFile (execOne c2fs c2op).1
      (c2op.source ++ [("d" : String), ("a" : String)]) = some [0] ∧
    lookupFile (execOne c2fs c2op).1
      (c2op.destination ++ [("d" : String), ("a" : String)]) = none := by
  decide

/-- Claim C2 (amended): for every operation whose source is a directory and
whose destination does not lie strictly inside the source directory, if
execution succeeds, then the operation's status is `module_replaced`, the
destination subtree afterwards equals the source subtree beforehand at every
relative path, and in particular any file that existed in the previous
destination directory but is absent from the source no longer exists at the
destination. -/
theorem module_replace_destructive (fs : FS) (op : FileOperation)
    (hdir : is_module fs op = true)
    (hnest : pathLt op.source op.destination = false)
    (hsucc : (execOne fs op).2.1 ≠ OpStatus.error) :
    (execOne fs op).2.1 = OpStatus.module_replaced ∧
    (∀ q : FPath, lookupFile (execOne fs op).1 (op.destination ++ q) =
      lookupFile fs (op.source ++ q)) ∧
    (∀ q : FPath, lookupFile fs (op.source ++ q) = none →
      lookupFile (execOne fs op).1 (op.destination ++ q) = none) := by
  by_cases hex : pathExistsF fs op.destination = true
  · by_cases hfile : (lookupFile fs op.destination).isSome = true
    · exact absurd (by simp [execOne, hdir, hex, hfile]) hsucc
    · have hfileF : (lookupFile fs op.destination).isSome = false :=
        eq_false_of_not_true hfile
      by_cases hmk : mkdirFails (removeTree fs op.destination)
          op.destination.dropLast = true
      · exact absurd (by simp [execOne, hdir, hex, hfileF, hmk]) hsucc
      · by_cases hsrc : isDirF (removeTree fs op.destination) op.source = true
        · have hres : execOne fs op =
              (copyTree (removeTree fs op.destination) op.source op.destination,
               OpStatus.module_replaced, [OpStatus.module_replaced]) := by
            simp [execOne, hdir, hex, hfileF, eq_false_of_not_true hmk, hsrc]
          have hmain : ∀ q : FPath,
              lookupFile (execOne fs op).1 (op.destination ++ q) =
                lookupFile fs (op.source ++ q) := by
            intro q
            rw [hres]
            have h1 : lookupFile (removeTree fs op.destination)
                (op.destination ++ q) = none := by
              rw [lookupFile_removeTree, if_pos (pathLe_append _ _)]
            rw [show (copyTree (removeTree fs op.destination) op.source
                op.destination, OpStatus.module_replaced,
                [OpStatus.module_replaced]).1 =
              copyTree (removeTree fs op.destination) op.source
                op.destination from rfl]
            rw [lookupFile_copyTree q h1, lookupFile_removeTree]
            have hnle : pathLe op.destination (op.source ++ q) = false := by
              by_contra hc
              have hc' : pathLe op.destination (op.source ++ q) = true := by
                revert hc
                cases pathLe op.destination (op.source ++ q) <;> simp
              have hds : pathLe op.destination op.source = true := by
                rcases pathLe_append_cases hc' with h | h
                · exact h
                · have hsd : op.source = op.destination := by
                    by_contra hne
                    have hlt : pathLt op.source op.destination = true := by
                      simp [pathLt, h, hne]
                    rw [hlt] at hnest
                    cases hnest
                  rw [← hsd]
                  exact pathLe_refl _
              rcases isDirF_iff.mp hsrc with ⟨e, he, hlt⟩
              rcases List.mem_filter.mp he with ⟨_, hcond⟩
              have hde : pathLe op.destination e.1 = true :=
                pathLe_trans hds (pathLe_of_pathLt hlt)
              simp [hde] at hcond
            rw [if_neg (not_eq_true_of_false hnle)]
          refine ⟨by rw [hres], hmain, fun q hq => by rw [hmain q, hq]⟩
        · exact absurd (by simp [execOne, hdir, hex, hfileF,
            eq_false_of_not_true hmk, eq_false_of_not_true hsrc]) hsucc
  · have hexF : pathExistsF fs op.destination = false := eq_false_of_not_true hex
    by_cases hmk : mkdirFails fs op.destination.dropLast = true
    · exact absurd (by simp [execOne, hdir, hexF, hmk]) hsucc
    · have hres : execOne fs op =
          (copyTree fs op.source op.destination,
           OpStatus.module_replaced, [OpStatus.module_replaced]) := by
        simp [execOne, hdir, hexF, eq_false_of_not_true hmk]
        exact hdir
      have hmain : ∀ q : FPath,
          lookupFile (execOne fs op).1 (op.destination ++ q) =
            lookupFile fs (op.source ++ q) := by
        intro q
        rw [hres]
        have h1 : lookupFile fs (op.destination ++ q) = none := by
          cases hlk : lookupFile fs (op.destination ++ q) with
          | none => rfl
          | some c =>
            exfalso
            have hmem := lookup_mem hlk
            cases q with
            | nil =>
              have : (lookupFile fs op.destination).isSome = true := by
                rw [show op.destination ++ ([] : FPath) = op.destination by
                  simp] at hlk
                rw [hlk]
                rfl
              simp [pathExistsF, this] at hexF
            | cons x t =>
              have hdird : isDirF fs op.destination = true := by
                rw [isDirF_iff]
                refine ⟨(op.destination ++ x :: t, c), hmem, ?_⟩
                simp only [pathLt, Bool.and_eq_true, decide_eq_true_eq]
                exact ⟨pathLe_append _ _,
                  self_ne_append (List.cons_ne_nil x t)⟩
              simp [pathExistsF, hdird] at hexF
        rw [show (copyTree fs op.source op.destination,
            OpStatus.module_replaced, [OpStatus.module_replaced]).1 =
          copyTree fs op.source op.destination from rfl]
        rw [lookupFile_copyTree q h1]
      refine ⟨by rw [hres], hmain, fun q hq => by rw [hmain q, hq]⟩

/-- Claim C2, witness: a concrete disjoint module replacement.  Source
directory `m` holds `x`; the destination `scripts/ag` holds a stale file
`old` which is gone afterwards, while `x` is present with the source's
content. -/
def c2wfs : FS :=
  [([("m" : String), ("x" : String)], [7]),
   ([("scripts" : String), ("ag" : String), ("old" : String)], [9])]

def c2wop : FileOperation :=
  { source := [("m" : String)],
    destination := [("scripts" : String), ("ag" : String)] }

theorem module_replace_destructive_witness :
    (execOne c2wfs c2wop).2.1 = OpStatus.module_replaced ∧
    lookupFile (execOne c2wfs c2wop).1
      (c2wop.destination ++ [("x" : String)]) =
      lookupFile c2wfs (c2wop.source ++ [("x" : String)]) ∧
    lookupFile (execOne c2wfs c2wop).1
      (c2wop.destination ++ [("old" : String)]) = none :=
  have h := module_replace_destructive c2wfs c2wop (by decide) (by decide)
    (by decide)
  ⟨h.1, h.2.1 [("x" : String)], h.2.2 [("old" : String)] (by decide)⟩

/-! ### Claim C1: idempotence of synchronization -/

theorem pathLe_length {p q : FPath} (h : pathLe p q = true) :
    p.length ≤ q.length := by
  rcases pathLe_iff.mp h with ⟨t, rfl⟩
  simp

theorem pathLe_dropLast (p : FPath) : pathLe p.dropLast p = true := by
  rcases eq_or_ne p [] with rfl | hp
  · simp [pathLe]
  · rw [pathLe_iff]
    exact ⟨[p.getLast hp], (List.dropLast_append_getLast hp).symm⟩

theorem ne_of_le_dropLast {q d : FPath} (hd : d ≠ [])
    (h : pathLe q d.dropLast = true) : q ≠ d := by
  intro hqd
  rw [hqd] at h
  have h1 := pathLe_length h
  have h2 : d.length ≠ 0 := fun h0 => hd (List.length_eq_zero.mp h0)
  rw [List.length_dropLast] at h1
  omega

/-- Classification of a single-file operation against a file system: the
status the executor assigns when no I/O failure occurs (`new` when the
destination is absent, `unchanged`/`updated` by byte comparison). -/
def classify (fs : FS) (op : FileOperation) : OpStatus :=
  match lookupFile fs op.destination, lookupFile fs op.source with
  | some db, some sb => if db = sb then OpStatus.unchanged else OpStatus.updated
  | none, some _ => OpStatus.new
  | _, none => OpStatus.error

/-- The operation's source is a readable regular file (what `resolve_files`
guarantees for the operations it emits). -/
def SrcOK (fs : FS) (op : FileOperation) : Prop :=
  (lookupFile fs op.source).isSome = true ∧ isDirF fs op.source = false

/-- The operation's destination is a sane file target: non-root, not a
directory, and no regular file blocks its parent-directory chain. -/
def DstOK (fs : FS) (op : FileOperation) : Prop :=
  op.destination ≠ [] ∧ isDirF fs op.destination = false ∧
    mkdirFails fs op.destination.dropLast = false

/-- The destination of `a` and the source of `b` are unrelated (neither is
an ancestor-or-self of the other): writes never touch the source tree. -/
def SepOK (a b : FileOperation) : Prop :=
  pathLe a.destination b.source = false ∧ pathLe b.source a.destination = false

instance (fs : FS) (op : FileOperation) : Decidable (SrcOK fs op) := by
  unfold SrcOK
  infer_instance

instance (fs : FS) (op : FileOperation) : Decidable (DstOK fs op) := by
  unfold DstOK
  infer_instance

instance (a b : FileOperation) : Decidable (SepOK a b) := by
  unfold SepOK
  infer_instance

/-- No prefix relation between the destination of `a` and any destination
in `l`. -/
def destFree : FileOperation → List FileOperation → Bool
  | _, [] => true
  | a, b :: rest =>
    (!(pathLe a.destination b.destination) &&
      !(pathLe b.destination a.destination)) && destFree a rest

/-- Destinations are pairwise prefix-free (in particular pairwise distinct). -/
def destSepAll : List FileOperation → Bool
  | [] => true
  | a :: rest => destFree a rest && destSepAll rest

theorem destFree_spec {a : FileOperation} {l : List FileOperation}
    (h : destFree a l = true) :
    ∀ b ∈ l, pathLe a.destination b.destination = false ∧
      pathLe b.destination a.destination = false := by
  induction l with
  | nil => intro b hb; cases hb
  | cons c rest ih =>
    simp only [destFree, Bool.and_eq_true, Bool.not_eq_true'] at h
    intro b hb
    rcases List.mem_cons.mp hb with rfl | hb
    · exact ⟨h.1.1, h.1.2⟩
    · exact ih h.2 b hb

theorem destSepAll_spec {l : List FileOperation} (h : destSepAll l = true) :
    ∀ a ∈ l, ∀ b ∈ l, a.destination ≠ b.destination →
      pathLe a.destination b.destination = false := by
  induction l with
  | nil => intro a ha; cases ha
  | cons c rest ih =>
    simp only [destSepAll, Bool.and_eq_true] at h
    intro a ha b hb hne
    rcases List.mem_cons.mp ha with ha' | ha'
    · rcases List.mem_cons.mp hb with hb' | hb'
      · rw [ha', hb'] at hne
        exact absurd rfl hne
      · rw [ha']
        exact (destFree_spec h.1 b hb').1
    · rcases List.mem_cons.mp hb with hb' | hb'
      · rw [hb']
        exact (destFree_spec h.1 a ha').2
      · exact ih h.2 a ha' b hb' hne

/-- One clean run of the executor over separated single-file operations:
the final tree agrees with the initial tree away from the destinations, each
destination ends up holding its source's bytes, each operation is classified
against the initial tree, and no new directory appears except strictly above
a destination. -/
theorem execOpsAux_clean_run (ops : List FileOperation) :
    ∀ (fs : FS) (stats : List (String × Nat)),
    (∀ op ∈ ops, SrcOK fs op) →
    (∀ op ∈ ops, DstOK fs op) →
    (∀ a ∈ ops, ∀ b ∈ ops, SepOK a b) →
    destSepAll ops = true →
    (∀ p : FPath, (∀ op ∈ ops, p ≠ op.destination) →
      lookupFile (execOpsAux fs stats ops).1 p = lookupFile fs p) ∧
    (∀ op ∈ ops, lookupFile (execOpsAux fs stats ops).1 op.destination =
      lookupFile fs op.source) ∧
    ((execOpsAux fs stats ops).2.1 =
      ops.map (fun op => { op with status := classify fs op })) ∧
    (∀ p : FPath, isDirF (execOpsAux fs stats ops).1 p = true →
      isDirF fs p = true ∨ ∃ op ∈ ops, pathLt p op.destination = true) := by
  induction ops with
  | nil =>
    intro fs stats _ _ _ _
    exact ⟨fun p _ => rfl, by simp, rfl, fun p h => Or.inl h⟩
  | cons op rest ih =>
    intro fs stats hsrc hdst hsep hdd
    obtain ⟨hs1, hs2⟩ := hsrc op (List.mem_cons_self _ _)
    obtain ⟨hd1, hd2, hd3⟩ := hdst op (List.mem_cons_self _ _)
    obtain ⟨sb, hsb⟩ : ∃ sb, lookupFile fs op.source = some sb := by
      cases h : lookupFile fs op.source with
      | none => rw [h] at hs1; cases hs1
      | some sb => exact ⟨sb, rfl⟩
    -- the head operation is a plain single-file copy
    have hstep : execOne fs op =
        (writeFile fs op.destination sb, classify fs op, [classify fs op]) := by
      cases hdl : lookupFile fs op.destination with
      | some db =>
        have hpe : pathExistsF fs op.destination = true := by
          simp [pathExistsF, hdl]
        simp [execOne, is_module, hs2, hd3, hpe, hdl, hsb, classify]
      | none =>
        have hpe : pathExistsF fs op.destination = false := by
          simp [pathExistsF, hdl, hd2]
        simp [execOne, is_module, hs2, hd3, hpe, hdl, hsb, classify]
    have hdf : destFree op rest = true := by
      simp only [destSepAll, Bool.and_eq_true] at hdd
      exact hdd.1
    have hdd' : destSepAll rest = true := by
      simp only [destSepAll, Bool.and_eq_true] at hdd
      exact hdd.2
    have hdfspec := destFree_spec hdf
    -- the hypotheses survive the head's write
    have hsrc' : ∀ op' ∈ rest, SrcOK (writeFile fs op.destination sb) op' := by
      intro op' hop'
      obtain ⟨h1, h2⟩ := hsrc op' (List.mem_cons_of_mem _ hop')
      obtain ⟨hsA, hsB⟩ :=
        hsep op (List.mem_cons_self _ _) op' (List.mem_cons_of_mem _ hop')
      constructor
      · rw [lookupFile_writeFile, if_neg (ne_of_pathLe_false hsA)]
        exact h1
      · rw [isDirF_writeFile]
        simp [pathLt, hsB, h2]
    have hdst' : ∀ op' ∈ rest, DstOK (writeFile fs op.destination sb) op' := by
      intro op' hop'
      obtain ⟨h1, h2, h3⟩ := hdst op' (List.mem_cons_of_mem _ hop')
      obtain ⟨hdA, hdB⟩ := hdfspec op' hop'
      refine ⟨h1, ?_, ?_⟩
      · rw [isDirF_writeFile]
        simp [pathLt, hdB, h2]
      · rw [mkdirFails_eq_false_iff]
        intro q hq
        rw [lookupFile_writeFile, if_neg ?_]
        · exact mkdirFails_eq_false_iff.mp h3 q hq
        · intro hqd
          have hle : pathLe q op'.destination = true :=
            pathLe_trans (mem_segsOf_iff.mp hq) (pathLe_dropLast _)
          rw [← hqd] at hle
          exact absurd hle (not_eq_true_of_false hdA)
    have hsep' : ∀ a ∈ rest, ∀ b ∈ rest, SepOK a b := fun a ha b hb =>
      hsep a (List.mem_cons_of_mem _ ha) b (List.mem_cons_of_mem _ hb)
    obtain ⟨ih1, ih2, ih3, ih4⟩ :=
      ih (writeFile fs op.destination sb)
        (bump stats (statusKey (classify fs op))) hsrc' hdst' hsep' hdd'
    -- compute the cons step of the executor loop
    have hunf : execOpsAux fs stats (op :: rest) =
        ((execOpsAux (writeFile fs op.destination sb)
            (bump stats (statusKey (classify fs op))) rest).1,
         { op with status := classify fs op } ::
           (execOpsAux (writeFile fs op.destination sb)
             (bump stats (statusKey (classify fs op))) rest).2.1,
         (execOpsAux (writeFile fs op.destination sb)
           (bump stats (statusKey (classify fs op))) rest).2.2) := by
      simp only [execOpsAux, hstep]
    rw [hunf]
    refine ⟨?_, ?_, ?_, ?_⟩
    · -- lookups away from all destinations are untouched
      intro p hp
      rw [ih1 p (fun o ho => hp o (List.mem_cons_of_mem _ ho)),
        lookupFile_writeFile,
        if_neg (fun h => hp op (List.mem_cons_self _ _) h.symm)]
    · -- each destination holds its source's bytes
      intro o ho
      rcases List.mem_cons.mp ho with ho' | ho'
      · rw [ho']
        have hnd : ∀ o' ∈ rest, op.destination ≠ o'.destination := by
          intro o' ho'' hde
          exact absurd (hde ▸ pathLe_refl op.destination)
            (not_eq_true_of_false (hdfspec o' ho'').1)
        rw [ih1 op.destination hnd, lookupFile_writeFile, if_pos rfl, hsb]
      · obtain ⟨hsA, hsB⟩ :=
          hsep op (List.mem_cons_self _ _) o (List.mem_cons_of_mem _ ho')
        rw [ih2 o ho', lookupFile_writeFile,
          if_neg (ne_of_pathLe_false hsA)]
    · -- statuses are the classification against the initial tree
      rw [ih3, List.map_cons]
      refine congrArg _ (List.map_congr_left ?_)
      intro o ho
      obtain ⟨hsA, hsB⟩ :=
        hsep op (List.mem_cons_self _ _) o (List.mem_cons_of_mem _ ho)
      have hde : op.destination ≠ o.destination := by
        intro hde
        exact absurd (hde ▸ pathLe_refl op.destination)
          (not_eq_true_of_false (hdfspec o ho).1)
      have e1 : lookupFile (writeFile fs op.destination sb) o.destination =
          lookupFile fs o.destination := by
        rw [lookupFile_writeFile, if_neg hde]
      have e2 : lookupFile (writeFile fs op.destination sb) o.source =
          lookupFile fs o.source := by
        rw [lookupFile_writeFile, if_neg (ne_of_pathLe_false hsA)]
      simp [classify, e1, e2]
    · -- new directories only appear strictly above a destination
      intro p hp
      rcases ih4 p hp with hp' | ⟨o, ho, hlt⟩
      · rw [isDirF_writeFile] at hp'
        rcases Bool.or_eq_true_iff.mp hp' with hlt | hdir
        · exact Or.inr ⟨op, List.mem_cons_self _ _, hlt⟩
        · exact Or.inl hdir
      · exact Or.inr ⟨o, List.mem_cons_of_mem _ ho, hlt⟩

/-- Concrete data for the C1 counterexample: two resolved single-file
operations (both sources exist as regular files) sharing one destination
with different contents — the "last write wins" situation the specification
itself allows. -/
def c1fs : FS := [([("s1" : String)], [1]), ([("s2" : String)], [2])]

def c1ops : List FileOperation :=
  [{ source := [("s1" : String)], destination := [("d" : String)] },
   { source := [("s2" : String)], destination := [("d" : String)] }]

/-- Claim C1, counterexample: for this set of resolved single-file
operations (each source a readable regular file), running
`execute_operations` a second time against the unchanged source tree
classifies both operations `updated`, not `unchanged`: the destination holds
the last writer's bytes, which differ from the first operation's source, and
the first copy of the second run changes them back and forth. -/
theorem execute_operations_idempotent_cex :
    (∀ op ∈ c1ops, SrcOK c1fs op) ∧
    (∀ op ∈ c1ops, lookupFile (execute_operations c1fs c1ops).1 op.source =
      lookupFile c1fs op.source) ∧
    ((execute_operations (execute_operations c1fs c1ops).1 c1ops).2.1.map
      (fun op => op.status)) = [OpStatus.updated, OpStatus.updated] := by
  decide

/-- Claim C1 (amended): for every set of resolved single-file operations
whose destinations are pairwise prefix-free (in particular pairwise
distinct), whose destinations are unrelated to every source (so the source
tree is unchanged by the run), and whose destinations are sane file targets,
running `execute_operations` twice classifies every operation `unchanged` on
the second run (hence none is `updated` and none is `error`), and the byte
content of every destination file after the second run equals its content
after the first run. -/
theorem execute_operations_idempotent (fs : FS) (ops : List FileOperation)
    (hsrc : ∀ op ∈ ops, SrcOK fs op)
    (hdst : ∀ op ∈ ops, DstOK fs op)
    (hsep : ∀ a ∈ ops, ∀ b ∈ ops, SepOK a b)
    (hdd : destSepAll ops = true) :
    (∀ op2 ∈ (execute_operations (execute_operations fs ops).1 ops).2.1,
      op2.status = OpStatus.unchanged) ∧
    (∀ op ∈ ops,
      lookupFile (execute_operations (execute_operations fs ops).1 ops).1
        op.destination =
      lookupFile (execute_operations fs ops).1 op.destination) := by
  simp only [execute_operations]
  obtain ⟨f1, f2, _, f4⟩ :=
    execOpsAux_clean_run ops fs initStats hsrc hdst hsep hdd
  have hsrc_pres : ∀ op ∈ ops,
      lookupFile (execOpsAux fs initStats ops).1 op.source =
        lookupFile fs op.source := by
    intro op hop
    refine f1 op.source (fun o ho => ?_)
    exact (ne_of_pathLe_false (hsep o ho op hop).1).symm
  have hsrc1 : ∀ op ∈ ops, SrcOK (execOpsAux fs initStats ops).1 op := by
    intro op hop
    obtain ⟨h1, h2⟩ := hsrc op hop
    refine ⟨by rw [hsrc_pres op hop]; exact h1, ?_⟩
    cases hdi : isDirF (execOpsAux fs initStats ops).1 op.source with
    | false => rfl
    | true =>
      rcases f4 op.source hdi with hc | ⟨o, ho, hlt⟩
      · rw [hc] at h2; cases h2
      · exact absurd (pathLe_of_pathLt hlt)
          (not_eq_true_of_false (hsep o ho op hop).2)
  have hdst1 : ∀ op ∈ ops, DstOK (execOpsAux fs initStats ops).1 op := by
    intro op hop
    obtain ⟨h1, h2, h3⟩ := hdst op hop
    refine ⟨h1, ?_, ?_⟩
    · cases hdi : isDirF (execOpsAux fs initStats ops).1 op.destination with
      | false => rfl
      | true =>
        rcases f4 op.destination hdi with hc | ⟨o, ho, hlt⟩
        · rw [hc] at h2; cases h2
        · by_cases hde : op.destination = o.destination
          · rw [← hde] at hlt
            rw [pathLt_self] at hlt
            cases hlt
          · exact absurd (pathLe_of_pathLt hlt)
              (not_eq_true_of_false (destSepAll_spec hdd op hop o ho hde))
    · rw [mkdirFails_eq_false_iff]
      intro q hq
      have hqd : pathLe q op.destination.dropLast = true := mem_segsOf_iff.mp hq
      have hne : ∀ o ∈ ops, q ≠ o.destination := by
        intro o ho hqe
        have hqop : q ≠ op.destination := ne_of_le_dropLast h1 hqd
        have hle : pathLe q op.destination = true :=
          pathLe_trans hqd (pathLe_dropLast _)
        rw [hqe] at hqop hle
        exact absurd hle
          (not_eq_true_of_false (destSepAll_spec hdd o ho op hop hqop))
      rw [f1 q hne]
      exact mkdirFails_eq_false_iff.mp h3 q hq
  obtain ⟨g1, g2, g3, _⟩ :=
    execOpsAux_clean_run ops (execOpsAux fs initStats ops).1 initStats
      hsrc1 hdst1 hsep hdd
  constructor
  · intro op2 hop2
    rw [g3] at hop2
    rcases List.mem_map.mp hop2 with ⟨op, hop, rfl⟩
    show classify (execOpsAux fs initStats ops).1 op = OpStatus.unchanged
    obtain ⟨sb, hsb⟩ : ∃ sb, lookupFile fs op.source = some sb := by
      cases h : lookupFile fs op.source with
      | none =>
        obtain ⟨h1, _⟩ := hsrc op hop
        rw [h] at h1
        cases h1
      | some sb => exact ⟨sb, rfl⟩
    have e1 : lookupFile (execOpsAux fs initStats ops).1 op.destination =
        some sb := by rw [f2 op hop, hsb]
    have e2 : lookupFile (execOpsAux fs initStats ops).1 op.source =
        some sb := by rw [hsrc_pres op hop, hsb]
    simp [classify, e1, e2]
  · intro op hop
    rw [g2 op hop, hsrc_pres op hop, f2 op hop]

/-- Concrete data for the C1 witness: one operation, disjoint paths. -/
def c1wfs : FS := [([("srcA" : String)], [3])]

def c1wops : List FileOperation :=
  [{ source := [("srcA" : String)], destination := [("dstA" : String)] }]

theorem execute_operations_idempotent_witness :
    (∀ op2 ∈ (execute_operations (execute_operations c1wfs c1wops).1
        c1wops).2.1, op2.status = OpStatus.unchanged) ∧
    lookupFile (execute_operations (execute_operations c1wfs c1wops).1
        c1wops).1 [("dstA" : String)] =
      lookupFile (execute_operations c1wfs c1wops).1 [("dstA" : String)] :=
  have h := execute_operations_idempotent c1wfs c1wops (by decide) (by decide)
    (by decide) (by decide)
  ⟨h.1, h.2 { source := [("srcA" : String)],
              destination := [("dstA" : String)] } (by decide)⟩

/-!
### Part 2: the resolver (`Agent`, `FileOrganizer.resolve_files` and helpers)

Strings are modelled as lists of characters so that Python `str.replace`
(global, left-to-right, non-overlapping) can be spelled out and reasoned
about.  Paths handled by the resolver are repo-root-relative strings: the
Python `self.repo_path / p` prefix is elided, since every resolver decision
depends only on the relative part.
-/

/-- A Python string, as its list of characters. -/
abbrev Str := List Char

/-- `strLead pat s`: `pat` is an initial run of `s`. -/
def strLead : Str → Str → Bool
  | [], _ => true
  | _, [] => false
  | a :: p, b :: s => decide (a = b) && strLead p s

/-- Python `pat in s`: some position of `s` starts an occurrence of `pat`. -/
def containsSub (s pat : Str) : Bool :=
  (List.range (s.length + 1)).any (fun i => strLead pat (s.drop i))

/-- Worker for `replaceAll`, structurally recursive on a fuel argument so
that concrete instances compute by reduction.  The input always has length
at most the fuel, so the fuel-exhausted arm is never reached on the
wrapper's inputs. -/
def replaceAllGo : Nat → Str → Str → Str → Str
  | 0, _, _, _ => []
  | _ + 1, [], _, _ => []
  | fuel + 1, c :: s', pat, rep =>
    if pat ≠ [] ∧ strLead pat (c :: s') = true then
      rep ++ replaceAllGo fuel ((c :: s').drop pat.length) pat rep
    else
      c :: replaceAllGo fuel s' pat rep

/-- Python `s.replace(pat, rep)`: replace every occurrence of `pat`,
scanning left to right, non-overlapping.  (Python's special behaviour for an
empty pattern is irrelevant here: every pattern used by the script is a
non-empty literal.) -/
def replaceAll (s pat rep : Str) : Str := replaceAllGo s.length s pat rep

/-- Membership in a list of strings. -/
def strListHas : List Str → Str → Bool
  | [], _ => false
  | s :: rest, p => decide (s = p) || strListHas rest p

/-- The source repository as the resolver observes it: which paths exist as
regular files, which as directories, and what `Path.glob` returns (the file
names matched by a pattern inside a directory; glob itself is a Python
library call, treated as an oracle). -/
structure Repo where
  files : List Str
  dirs : List Str
  globFiles : Str → Str → List Str

/-- `Path.exists` on a repo-relative path. -/
def pathExistsR (r : Repo) (p : Str) : Bool :=
  strListHas r.files p || strListHas r.dirs p

/-- `Path.is_dir` on a repo-relative path. -/
def isDirR (r : Repo) (p : Str) : Bool := strListHas r.dirs p

/-- A location template from the manifest's `locaties` section: either a
single string or a mapping from value stream to template string. -/
inductive TemplateVal where
  | str (s : Str)
  | map (m : List (Str × Str))
deriving DecidableEq

/-- The manifest's locations dictionary. -/
abbrev Locations := List (Str × TemplateVal)

/-- `self.locations.get(key)`. -/
def locGet : Locations → Str → Option TemplateVal
  | [], _ => none
  | (k, v) :: rest, key => if k = key then some v else locGet rest key

/-- `m.get(key)` on a string-to-string dict. -/
def pyGetS : List (Str × Str) → Str → Option Str
  | [], _ => none
  | (k, v) :: rest, key => if k = key then some v else pyGetS rest key

/-- Python truthiness of an optional string: `None` and `""` are falsy. -/
def truthyS : Option Str → Option Str
  | some s => if s = [] then none else some s
  | none => none

/-- Python falsiness of an optional template value: `None`, `""` and `{}`
are falsy (the `if not template:` checks in the resolver). -/
def tvFalsy : Option TemplateVal → Bool
  | none => true
  | some (TemplateVal.str s) => decide (s = [])
  | some (TemplateVal.map m) => decide (m = [])

def agentTok : Str := "<agent-naam>".data
def streamTok : Str := "<value-stream>".data
def chartersKey : Str := "charters".data
def promptsKey : Str := "prompts".data
def agentsKey : Str := "agents".data
def runnersKey : Str := "runners".data
def defaultKey : Str := "default".data
def dotCharterDot : Str := ".charter.".data
def dotOnly : Str := ".".data
def charterDot : Str := "charter.".data
def dotCharter : Str := ".charter".data
def dotMd : Str := ".md".data
def dotPy : Str := ".py".data
def starStr : Str := "*".data
def slashStr : Str := "/".data
def chartersDest : Str := "charters-agents/".data
def agentsDest : Str := ".github/agents/".data
def promptsDest : Str := ".github/prompts/".data
def scriptsDest : Str := "scripts/".data
def exportsDir : Str := "exports/".data
def slashAgentsDir : Str := "/agents".data
def slashRunnersDir : Str := "/runners/".data
def promptPatSuffix : Str := "-*.prompt.md".data
def agentPatSuffix : Str := "*.agent.md".data

/-- The template-selection pattern repeated verbatim in `_resolve_charter`,
`_resolve_prompts`, `_resolve_agents` and `_resolve_runner`: the outer
`if not template:` falsiness check, then for a mapping
`template = m.get(value_stream) or m.get("default")` (Python `or` falls
through on an *empty* string, not only on a missing key), then the inner
`if not template:` check. -/
def select_template (tv : Option TemplateVal) (vs : Str) : Option Str :=
  if tvFalsy tv then none
  else
    match tv with
    | some (TemplateVal.str s) => some s
    | some (TemplateVal.map m) =>
      truthyS (match truthyS (pyGetS m vs) with
               | some s => some s
               | none => pyGetS m defaultKey)
    | none => none

/-- Placeholder substitution (lines 266-269 etc.):
`template.replace("<agent-naam>", name).replace("<value-stream>", vs)`. -/
def substitute (t name vs : Str) : Str :=
  replaceAll (replaceAll t agentTok name) streamTok vs

/-- `Agent` as parsed from the manifest. -/
structure AgentC where
  name : Str
  value_stream : Str
  charter_count : Nat := 0
  prompt_count : Nat := 0
  agent_count : Nat := 0
  runner_count : Nat := 0
deriving DecidableEq

/-- Python `str.lower()` (ASCII case folding suffices for the identifiers
involved). -/
def lowerStr (s : Str) : Str := s.map Char.toLower

def utilityStr : Str := "utility".data

/-- `Agent.is_utility`: `self.value_stream.lower() == "utility"`. -/
def is_utility (ag : AgentC) : Bool :=
  decide (lowerStr ag.value_stream = utilityStr)

/-- `Agent.applies_to` (lines 56-60). -/
def applies_to (ag : AgentC) (target_stream : Str) : Bool :=
  is_utility ag ||
    decide (lowerStr ag.value_stream = lowerStr target_stream)

/-- A planned operation as built by the resolver (status starts `pending`;
the executor-side type carries the mutable status). -/
structure FileOpR where
  source : Str
  destination : Str
deriving DecidableEq

/-- Python `s.rsplit("/", 1)`: `(before, some after)` splitting at the last
separator when one exists, else `(s, none)` — indexing `[1]` on the latter
raises `IndexError`. -/
def rsplit1 : Str → Str × Option Str
  | [] => ([], none)
  | c :: s =>
    match rsplit1 s with
    | (head, some tail) => (c :: head, some tail)
    | (head, none) => if c = '/' then ([], some s) else (c :: head, none)

/-- The warnings `resolve_files` appends; each constructor stands for one of
the four f-string messages:
`f"{name}: charter not found"`,
`f"{name}: expected {n} agent files but found none"`,
`f"{name}: expected {n} prompts but found none"`,
`f"{name}: runner module not found"`. -/
inductive Warning where
  | charterNotFound (agent : Str)
  | agentFilesMissing (agent : Str) (expected : Nat)
  | promptsMissing (agent : Str) (expected : Nat)
  | runnerMissing (agent : Str)
deriving DecidableEq

/-- Occurrences of a warning in a warning list. -/
def countW (w : Warning) (ws : List Warning) : Nat :=
  (ws.filter (fun x => decide (x = w))).length

/-- `FileOrganizer._resolve_charter` (lines 250-294), including the
alternate-naming fallback performed with global `str.replace`. -/
def resolve_charter (r : Repo) (locs : Locations) (ag : AgentC) :
    Option FileOpR :=
  match select_template (locGet locs chartersKey) ag.value_stream with
  | none => none
  | some template =>
    let charter_path := substitute template ag.name ag.value_stream
    if pathExistsR r charter_path then
      some { source := charter_path,
             destination := chartersDest ++ ag.name ++ dotMd }
    else if containsSub charter_path dotCharterDot then
      let alt1 := replaceAll charter_path dotCharterDot dotOnly
      let alt := replaceAll alt1 (ag.name ++ dotMd)
        (charterDot ++ ag.name ++ dotMd)
      if pathExistsR r alt then
        some { source := alt, destination := chartersDest ++ ag.name ++ dotMd }
      else none
    else if containsSub charter_path charterDot then
      let alt := replaceAll charter_path (charterDot ++ ag.name)
        (ag.name ++ dotCharter)
      if pathExistsR r alt then
        some { source := alt, destination := chartersDest ++ ag.name ++ dotMd }
      else none
    else none

/-- The shared tail of `_resolve_prompts`/`_resolve_agents`: check the
directory exists, glob the pattern inside it, and emit one operation per
matched name with the category's destination directory. -/
def globOps (r : Repo) (dirStr pattern destDir : Str) : List FileOpR :=
  if pathExistsR r dirStr then
    (r.globFiles dirStr pattern).map (fun nm =>
      { source := dirStr ++ slashStr ++ nm, destination := destDir ++ nm })
  else []

/-- `FileOrganizer._resolve_prompts` (lines 296-342).  When the substituted
template contains a wildcard but no separator, `rsplit("/", 1)[1]` raises
`IndexError`, modelled as `Except.error ()`. -/
def resolve_prompts (r : Repo) (locs : Locations) (ag : AgentC) :
    Except Unit (List FileOpR) :=
  match select_template (locGet locs promptsKey) ag.value_stream with
  | none => Except.ok []
  | some template =>
    let template_path := substitute template ag.name ag.value_stream
    if containsSub template_path starStr then
      match rsplit1 template_path with
      | (_, none) => Except.error ()
      | (d, some pat) => Except.ok (globOps r d pat promptsDest)
    else
      Except.ok (globOps r (rsplit1 template_path).1
        (ag.name ++ promptPatSuffix) promptsDest)

/-- `FileOrganizer._resolve_agents` (lines 344-392): with no (truthy)
template in the manifest the conventional directory
`exports/<value-stream>/agents` is used; otherwise like prompts. -/
def resolve_agents (r : Repo) (locs : Locations) (ag : AgentC) :
    Except Unit (List FileOpR) :=
  if tvFalsy (locGet locs agentsKey) then
    Except.ok (globOps r (exportsDir ++ ag.value_stream ++ slashAgentsDir)
      (ag.name ++ agentPatSuffix) agentsDest)
  else
    match select_template (locGet locs agentsKey) ag.value_stream with
    | none => Except.ok []
    | some template =>
      let template_path := substitute template ag.name ag.value_stream
      if containsSub template_path starStr then
        match rsplit1 template_path with
        | (_, none) => Except.error ()
        | (d, some pat) => Except.ok (globOps r d pat agentsDest)
      else
        Except.ok (globOps r (rsplit1 template_path).1
          (ag.name ++ agentPatSuffix) agentsDest)

/-- `Path.name`: the final path component. -/
def baseName (p : Str) : Str :=
  match rsplit1 p with
  | (_, some nm) => nm
  | (s, none) => s

def endsWith (s suf : Str) : Bool := strLead suf.reverse s.reverse

/-- `runner_path.suffix == ".py"`: the final component ends in `.py` and is
not the bare hidden name `.py` (for which `pathlib` reports no suffix). -/
def pySuffix (p : Str) : Bool :=
  endsWith (baseName p) dotPy && decide (baseName p ≠ dotPy)

/-- `FileOrganizer._resolve_runner` (lines 394-432). -/
def resolve_runner (r : Repo) (locs : Locations) (ag : AgentC) :
    Option FileOpR :=
  match select_template (locGet locs runnersKey) ag.value_stream with
  | none => none
  | some template =>
    let runner_path0 := substitute template ag.name ag.value_stream
    let fallback := exportsDir ++ ag.value_stream ++ slashRunnersDir ++
      ag.name ++ dotPy
    let runner_path :=
      if !(pathExistsR r runner_path0) then
        if pathExistsR r fallback then fallback else runner_path0
      else runner_path0
    if pathExistsR r runner_path then
      if isDirR r runner_path then
        some { source := runner_path, destination := scriptsDest ++ ag.name }
      else if pySuffix runner_path then
        some { source := runner_path,
               destination := scriptsDest ++ baseName runner_path }
      else none
    else none

/-- The body of the per-agent loop of `FileOrganizer.resolve_files`
(lines 214-247): charter, then agent definitions (always attempted), then
prompts (only when expected), then the runner unit; warnings for the gaps. -/
def resolveFilesForAgent (r : Repo) (locs : Locations) (ag : AgentC) :
    Except Unit (List FileOpR × List Warning) :=
  match resolve_agents r locs ag with
  | Except.error e => Except.error e
  | Except.ok agentOps =>
    match (if 0 < ag.prompt_count then resolve_prompts r locs ag
           else Except.ok []) with
    | Except.error e => Except.error e
    | Except.ok promptOps =>
      Except.ok
        ((match resolve_charter r locs ag with
          | some cop => [cop]
          | none => []) ++
         (if agentOps.isEmpty then [] else agentOps) ++
         (if 0 < ag.prompt_count then
            (if promptOps.isEmpty then [] else promptOps)
          else []) ++
         (if 0 < ag.runner_count then
            (match resolve_runner r locs ag with
             | some rop => [rop]
             | none => [])
          else []),
         (match resolve_charter r locs ag with
          | some _ => []
          | none => [Warning.charterNotFound ag.name]) ++
         (if agentOps.isEmpty then
            (if 0 < ag.agent_count then
              [Warning.agentFilesMissing ag.name ag.agent_count]
             else [])
          else []) ++
         (if 0 < ag.prompt_count then
            (if promptOps.isEmpty then
              [Warning.promptsMissing ag.name ag.prompt_count]
             else [])
          else []) ++
         (if 0 < ag.runner_count then
            (match resolve_runner r locs ag with
             | some _ => []
             | none => [Warning.runnerMissing ag.name])
          else []))

/-- `FileOrganizer.resolve_files` (lines 209-248): loop over the agents,
skipping those that do not apply to the requested value stream; an
uncaught exception from a resolver aborts the whole call. -/
def resolve_files (r : Repo) (locs : Locations) (agents : List AgentC)
    (value_stream : Str) : Except Unit (List FileOpR × List Warning) :=
  match agents with
  | [] => Except.ok ([], [])
  | ag :: rest =>
    if applies_to ag value_stream then
      match resolveFilesForAgent r locs ag with
      | Except.error e => Except.error e
      | Except.ok pair =>
        match resolve_files r locs rest value_stream with
        | Except.error e => Except.error e
        | Except.ok pair' => Except.ok (pair.1 ++ pair'.1, pair.2 ++ pair'.2)
    else resolve_files r locs rest value_stream

/-! ### String lemmas for the resolver -/

theorem strLead_append (p t : Str) : strLead p (p ++ t) = true := by
  induction p with
  | nil => simp [strLead]
  | cons a p ih => simp [strLead, ih]

theorem strLead_length {p s : Str} (h : strLead p s = true) :
    p.length ≤ s.length := by
  induction p generalizing s with
  | nil => simp
  | cons a p ih =>
    cases s with
    | nil => cases h
    | cons b s =>
      simp only [strLead, Bool.and_eq_true] at h
      simpa using ih h.2

theorem drop_len_append_str (p t : Str) : (p ++ t).drop p.length = t := by
  rw [List.drop_left]

theorem replaceAllGo_no_match {pat rep : Str} :
    ∀ (f : Nat) (s : Str), s.length ≤ f →
    (∀ i, strLead pat (s.drop i) = false) →
    replaceAllGo f s pat rep = s := by
  intro f
  induction f with
  | zero =>
    intro s hs _
    rw [List.length_eq_zero.mp (Nat.le_zero.mp hs)]
    rfl
  | succ f ih =>
    intro s hs h
    cases s with
    | nil => rfl
    | cons c s' =>
      have h0 : strLead pat (c :: s') = false := by
        have := h 0
        simpa using this
      rw [replaceAllGo,
        if_neg (fun hc => Bool.false_ne_true (h0 ▸ hc.2))]
      refine congrArg _ (ih s' (by simpa using hs) (fun i => ?_))
      have := h (i + 1)
      simpa using this

theorem replaceAll_no_match {s pat rep : Str}
    (h : ∀ i, strLead pat (s.drop i) = false) : replaceAll s pat rep = s :=
  replaceAllGo_no_match s.length s le_rfl h

theorem replaceAllGo_first (pat B rep : Str) (hp : pat ≠ []) :
    ∀ (f : Nat) (A : Str), (A ++ pat ++ B).length ≤ f →
    (∀ i < A.length, strLead pat ((A ++ pat ++ B).drop i) = false) →
    ∃ f', B.length ≤ f' ∧
      replaceAllGo f (A ++ pat ++ B) pat rep =
        A ++ rep ++ replaceAllGo f' B pat rep := by
  intro f
  induction f with
  | zero =>
    intro A hl _
    exfalso
    simp only [List.length_append, Nat.le_zero] at hl
    have : pat.length = 0 := by omega
    exact hp (List.length_eq_zero.mp this)
  | succ f ih =>
    intro A hl hA
    cases A with
    | nil =>
      simp only [List.nil_append] at hl ⊢
      cases pat with
      | nil => exact absurd rfl hp
      | cons x p' =>
        refine ⟨f, ?_, ?_⟩
        · simp only [List.length_append, List.length_cons] at hl
          omega
        · have hlead : strLead (x :: p') ((x :: p') ++ B) = true :=
            strLead_append (x :: p') B
          rw [List.cons_append] at hlead
          rw [List.cons_append, replaceAllGo, if_pos ⟨hp, hlead⟩,
            ← List.cons_append, drop_len_append_str]
    | cons a A' =>
      have h0 : strLead pat (a :: (A' ++ pat ++ B)) = false := by
        have := hA 0 (by simp)
        simpa using this
      have hcons : (a :: A') ++ pat ++ B = a :: (A' ++ pat ++ B) := rfl
      rw [hcons, replaceAllGo,
        if_neg (fun hc => Bool.false_ne_true (h0 ▸ hc.2))]
      have hl' : (A' ++ pat ++ B).length ≤ f := by
        rw [hcons] at hl
        simpa using hl
      have hA' : ∀ i < A'.length,
          strLead pat ((A' ++ pat ++ B).drop i) = false := by
        intro i hi
        have := hA (i + 1) (by simpa using Nat.succ_lt_succ hi)
        simpa using this
      obtain ⟨f', hf', heq⟩ := ih A' hl' hA'
      exact ⟨f', hf', by rw [heq]; rfl⟩

theorem replaceAll_single {A pat B rep : Str} (hp : pat ≠ [])
    (hA : ∀ i < A.length, strLead pat ((A ++ pat ++ B).drop i) = false)
    (hB : ∀ i, strLead pat (B.drop i) = false) :
    replaceAll (A ++ pat ++ B) pat rep = A ++ rep ++ B := by
  obtain ⟨f', hf', heq⟩ :=
    replaceAllGo_first pat B rep hp (A ++ pat ++ B).length A le_rfl hA
  rw [replaceAll, heq, replaceAllGo_no_match f' B hf' hB]

theorem containsSub_iff {s pat : Str} (hp : pat ≠ []) :
    containsSub s pat = true ↔ ∃ i, strLead pat (s.drop i) = true := by
  unfold containsSub
  rw [List.any_eq_true]
  constructor
  · rintro ⟨i, _, h⟩
    exact ⟨i, h⟩
  · rintro ⟨i, h⟩
    refine ⟨i, List.mem_range.mpr ?_, h⟩
    have h1 := strLead_length h
    have h2 : 1 ≤ pat.length := by
      cases pat with
      | nil => exact absurd rfl hp
      | cons x xs => simp
    rw [List.length_drop] at h1
    omega

theorem containsSub_false {s pat : Str} (hp : pat ≠ [])
    (h : containsSub s pat = false) : ∀ i, strLead pat (s.drop i) = false := by
  intro i
  cases hl : strLead pat (s.drop i) with
  | false => rfl
  | true =>
    have := (containsSub_iff hp).mpr ⟨i, hl⟩
    rw [h] at this
    cases this

theorem containsSub_short {s pat : Str} (h : s.length < pat.length) :
    containsSub s pat = false := by
  cases hc : containsSub s pat with
  | false => rfl
  | true =>
    exfalso
    have hp : pat ≠ [] := by
      intro hp
      rw [hp] at h
      simp at h
    rcases (containsSub_iff hp).mp hc with ⟨i, hi⟩
    have hl := strLead_length hi
    rw [List.length_drop] at hl
    omega

/-! ### Claim C8: the applicability predicate -/

/-- Claim C8: for every agent and target stream `s`, `applies_to s` holds
iff the agent's value stream is the utility marker (compared
case-insensitively) or `s` equals the agent's value stream under
case-insensitive comparison; in particular, for a utility agent
`applies_to s` holds for every `s`. -/
theorem applies_to_spec (ag : AgentC) (s : Str) :
    (applies_to ag s = true ↔
      (lowerStr ag.value_stream = utilityStr ∨
        lowerStr s = lowerStr ag.value_stream)) ∧
    (lowerStr ag.value_stream = utilityStr →
      ∀ s' : Str, applies_to ag s' = true) := by
  constructor
  · rw [applies_to, Bool.or_eq_true, is_utility]
    simp only [decide_eq_true_eq]
    exact or_congr Iff.rfl eq_comm
  · intro h s'
    simp [applies_to, is_utility, h]

def c8ag : AgentC := { name := "x".data, value_stream := "Utility".data }
def c8s : Str := "kennispublicatie".data

theorem applies_to_spec_witness : applies_to c8ag c8s = true :=
  (applies_to_spec c8ag c8s).2 (by decide) c8s

/-! ### Claim C7: template selection order -/

/-- The amended selection rule: the value under the exact value-stream key
when it is present with a non-empty value, else the value under `"default"`
when present with a non-empty value, else none. -/
def selectTemplateTruthy (m : List (Str × Str)) (vs : Str) : Option Str :=
  match truthyS (pyGetS m vs) with
  | some s => some s
  | none => truthyS (pyGetS m defaultKey)

theorem truthyS_idem {o : Option Str} {s : Str} (h : truthyS o = some s) :
    truthyS (some s) = some s := by
  have hred : ∀ u : Str, truthyS (some u) = if u = [] then none else some u :=
    fun u => rfl
  cases o with
  | none => cases h
  | some t =>
    rw [hred] at h
    by_cases ht : t = []
    · rw [if_pos ht] at h
      cases h
    · rw [if_neg ht] at h
      injection h with h
      subst h
      rw [hred, if_neg ht]

theorem select_template_map_eq (m : List (Str × Str)) (vs : Str) :
    select_template (some (TemplateVal.map m)) vs =
      selectTemplateTruthy m vs := by
  by_cases hm : m = []
  · subst hm
    rfl
  · unfold select_template
    rw [if_neg (fun hc => hm (by simpa [tvFalsy] using hc))]
    unfold selectTemplateTruthy
    cases h : truthyS (pyGetS m vs) with
    | some s =>
      simp only [h]
      exact truthyS_idem h
    | none =>
      simp only [h]

def c7map : List (Str × Str) :=
  [("s".data, ([] : Str)), (defaultKey, "d".data)]

/-- Claim C7, counterexample: in a per-stream mapping whose exact
value-stream key is present but maps to the empty string, the selected
template is the `"default"` value, not the value under the value-stream key
as claimed — Python's `m.get(vs) or m.get("default")` falls through on any
falsy value, not only on a missing key. -/
theorem select_template_cex :
    pyGetS c7map ("s".data) = some ([] : Str) ∧
    select_template (some (TemplateVal.map c7map)) ("s".data) =
      some ("d".data) := by
  decide

/-- Claim C7 (amended): for every per-stream mapping, the selected template
is the value under the exact value-stream key whenever that key is present
with a non-empty value, otherwise the value under the `"default"` key when
present with a non-empty value, otherwise none; and a category whose
mapping selects none resolves to zero operations (for the definitions
category provided the mapping itself is non-empty, since an empty mapping
is falsy and routes to the conventional default directory instead). -/
theorem select_template_spec (m : List (Str × Str)) (vs : Str) :
    (select_template (some (TemplateVal.map m)) vs =
      selectTemplateTruthy m vs) ∧
    (∀ (r : Repo) (locs : Locations) (ag : AgentC),
      locGet locs chartersKey = some (TemplateVal.map m) →
      selectTemplateTruthy m ag.value_stream = none →
      resolve_charter r locs ag = none) ∧
    (∀ (r : Repo) (locs : Locations) (ag : AgentC),
      locGet locs promptsKey = some (TemplateVal.map m) →
      selectTemplateTruthy m ag.value_stream = none →
      resolve_prompts r locs ag = Except.ok []) ∧
    (∀ (r : Repo) (locs : Locations) (ag : AgentC),
      locGet locs agentsKey = some (TemplateVal.map m) → m ≠ [] →
      selectTemplateTruthy m ag.value_stream = none →
      resolve_agents r locs ag = Except.ok []) := by
  refine ⟨select_template_map_eq m vs, ?_, ?_, ?_⟩
  · intro r locs ag hloc hnone
    unfold resolve_charter
    rw [hloc, select_template_map_eq, hnone]
  · intro r locs ag hloc hnone
    unfold resolve_prompts
    rw [hloc, select_template_map_eq, hnone]
  · intro r locs ag hloc hm hnone
    unfold resolve_agents
    rw [hloc, if_neg (fun hc => hm (by simpa [tvFalsy] using hc)),
      select_template_map_eq, hnone]

def c7wmap : List (Str × Str) := [("vs1".data, ([] : Str))]
def c7wlocs : Locations :=
  [(chartersKey, TemplateVal.map c7wmap),
   (promptsKey, TemplateVal.map c7wmap),
   (agentsKey, TemplateVal.map c7wmap)]
def c7wrepo : Repo :=
  { files := [], dirs := ["exports/vs1/agents".data],
    globFiles := fun _ _ => ["f.agent.md".data] }
def c7wag : AgentC :=
  { name := "n".data, value_stream := "vs1".data, prompt_count := 1 }

theorem select_template_spec_witness :
    resolve_charter c7wrepo c7wlocs c7wag = none ∧
    resolve_prompts c7wrepo c7wlocs c7wag = Except.ok [] ∧
    resolve_agents c7wrepo c7wlocs c7wag = Except.ok [] :=
  have h := select_template_spec c7wmap ("vs1".data)
  ⟨h.2.1 c7wrepo c7wlocs c7wag rfl (by decide),
   h.2.2.1 c7wrepo c7wlocs c7wag rfl (by decide),
   h.2.2.2 c7wrepo c7wlocs c7wag rfl (by decide) (by decide)⟩

/-! ### Claim C10: template splitting is not total -/

def c10repo : Repo := { files := [], dirs := [], globFiles := fun _ _ => [] }
def c10locs : Locations := [(promptsKey, TemplateVal.str ("p*.md".data))]
def c10ag : AgentC :=
  { name := "a".data, value_stream := "vs".data, prompt_count := 1 }

/-- Claim C10: there is a manifest whose prompts location template contains
a wildcard marker but no path separator, on which `resolve_files` raises
(the `template_path.rsplit("/", 1)[1]` indexing fails) instead of returning
an `(operations, warnings)` result. -/
theorem resolve_files_split_raises :
    containsSub (substitute ("p*.md".data) c10ag.name c10ag.value_stream)
      starStr = true ∧
    (rsplit1 (substitute ("p*.md".data) c10ag.name c10ag.value_stream)).2 =
      none ∧
    resolve_files c10repo c10locs [c10ag] ("vs".data) = Except.error () := by
  refine ⟨by decide, by decide, ?_⟩
  rfl

/-! ### Claim C4: definitions resolution and its count-mismatch warning -/

theorem countW_append (w : Warning) (a b : List Warning) :
    countW w (a ++ b) = countW w a + countW w b := by
  simp [countW, List.filter_append]

theorem countW_eq_zero {w : Warning} : ∀ {l : List Warning},
    w ∉ l → countW w l = 0 := by
  intro l
  induction l with
  | nil => intro _; rfl
  | cons x xs ih =>
    intro h
    have hx : ¬(x = w) := fun he => h (he ▸ List.mem_cons_self x xs)
    simp only [countW, List.filter_cons]
    rw [if_neg (by simpa using hx)]
    exact ih (fun hm => h (List.mem_cons_of_mem _ hm))

/-- Claim C4: whenever the per-agent loop body of `resolve_files` returns
normally, definition-file resolution was attempted regardless of the
declared count and every matched definition file is emitted as an
operation; the count-mismatch warning for the agent is present iff the
declared count is positive and zero files matched, and in that case it is
produced exactly once. -/
theorem resolve_definitions_warning_iff (r : Repo) (locs : Locations)
    (ag : AgentC) (ops : List FileOpR) (ws : List Warning)
    (defOps : List FileOpR)
    (hdef : resolve_agents r locs ag = Except.ok defOps)
    (hok : resolveFilesForAgent r locs ag = Except.ok (ops, ws)) :
    (∀ op ∈ defOps, op ∈ ops) ∧
    ((Warning.agentFilesMissing ag.name ag.agent_count ∈ ws) ↔
      (0 < ag.agent_count ∧ defOps = [])) ∧
    (countW (Warning.agentFilesMissing ag.name ag.agent_count) ws =
      if 0 < ag.agent_count ∧ defOps = [] then 1 else 0) := by
  unfold resolveFilesForAgent at hok
  rw [hdef] at hok
  cases hpr : (if 0 < ag.prompt_count then resolve_prompts r locs ag
      else Except.ok ([] : List FileOpR)) with
  | error e =>
    rw [hpr] at hok
    exact absurd hok (by simp)
  | ok promptOps =>
    rw [hpr] at hok
    simp only [] at hok
    injection hok with hpair
    rw [Prod.mk.injEq] at hpair
    obtain ⟨hops, hws⟩ := hpair
    subst hops
    subst hws
    have hW1 : Warning.agentFilesMissing ag.name ag.agent_count ∉
        (match resolve_charter r locs ag with
         | some _ => ([] : List Warning)
         | none => [Warning.charterNotFound ag.name]) := by
      cases resolve_charter r locs ag <;> simp
    have hW3 : Warning.agentFilesMissing ag.name ag.agent_count ∉
        (if 0 < ag.prompt_count then
          (if promptOps.isEmpty then
            [Warning.promptsMissing ag.name ag.prompt_count]
           else [])
         else []) := by
      split_ifs <;> simp
    have hW4 : Warning.agentFilesMissing ag.name ag.agent_count ∉
        (if 0 < ag.runner_count then
          (match resolve_runner r locs ag with
           | some _ => ([] : List Warning)
           | none => [Warning.runnerMissing ag.name])
         else []) := by
      by_cases hr : 0 < ag.runner_count
      · rw [if_pos hr]
        cases resolve_runner r locs ag <;> simp
      · rw [if_neg hr]
        simp
    refine ⟨?_, ?_, ?_⟩
    · intro op hop
      cases defOps with
      | nil => cases hop
      | cons d ds =>
        simp [List.mem_append]
        rcases List.mem_cons.mp hop with h' | h'
        · exact Or.inr (Or.inl h')
        · exact Or.inr (Or.inr (Or.inl h'))
    · constructor
      · intro hmem
        rcases List.mem_append.mp hmem with hm | hm
        case inr => exact absurd hm hW4
        rcases List.mem_append.mp hm with hm' | hm'
        case inr => exact absurd hm' hW3
        rcases List.mem_append.mp hm' with hm'' | hm''
        case inl => exact absurd hm'' hW1
        cases defOps with
        | nil =>
          by_cases hac : 0 < ag.agent_count
          · exact ⟨hac, rfl⟩
          · simp [hac] at hm''
        | cons d ds => simp at hm''
      · intro h
        obtain ⟨hac, hnil⟩ := h
        subst hnil
        simp [List.mem_append, hac]
    · rw [countW_append, countW_append, countW_append,
        countW_eq_zero hW1, countW_eq_zero hW3, countW_eq_zero hW4]
      cases defOps with
      | nil =>
        by_cases hac : 0 < ag.agent_count
        · rw [if_pos (show 0 < ag.agent_count ∧ ([] : List FileOpR) = []
            from ⟨hac, rfl⟩)]
          simp [hac, countW]
        · rw [if_neg (fun hc : 0 < ag.agent_count ∧ ([] : List FileOpR) = []
            => hac hc.1)]
          simp [hac, countW]
      | cons d ds =>
        rw [if_neg (fun hc : 0 < ag.agent_count ∧ d :: ds = []
          => List.cons_ne_nil d ds hc.2)]
        simp [countW]

def c4repo : Repo := { files := [], dirs := [], globFiles := fun _ _ => [] }
def c4locs : Locations := []
def c4ag : AgentC :=
  { name := "w".data, value_stream := "docs".data, agent_count := 1 }

theorem resolve_definitions_warning_iff_witness :
    ((Warning.agentFilesMissing c4ag.name c4ag.agent_count ∈
      ([Warning.charterNotFound c4ag.name,
        Warning.agentFilesMissing c4ag.name c4ag.agent_count] :
        List Warning)) ↔
      (0 < c4ag.agent_count ∧ ([] : List FileOpR) = [])) ∧
    countW (Warning.agentFilesMissing c4ag.name c4ag.agent_count)
      [Warning.charterNotFound c4ag.name,
       Warning.agentFilesMissing c4ag.name c4ag.agent_count] =
      if 0 < c4ag.agent_count ∧ ([] : List FileOpR) = [] then 1 else 0 :=
  have h := resolve_definitions_warning_iff c4repo c4locs c4ag []
    [Warning.charterNotFound c4ag.name,
     Warning.agentFilesMissing c4ag.name c4ag.agent_count] [] rfl rfl
  ⟨h.2.1, h.2.2⟩

/-! ### Claim C6: runner-unit resolution shape -/

def c6repo : Repo :=
  { files := ["runners/go.sh".data], dirs := [], globFiles := fun _ _ => [] }
def c6locs : Locations :=
  [(runnersKey, TemplateVal.str ("runners/go.sh".data))]
def c6ag : AgentC :=
  { name := "g".data, value_stream := "vs".data, runner_count := 1 }

/-- Claim C6, counterexample: the resolved runner path exists and is a
single regular file, yet no operation is emitted, because the file's name
does not end in `.py` (`_resolve_runner` line 428 only emits for suffix
`.py`); the claim promises one file operation for every existing unit
file. -/
theorem resolve_runner_shape_cex :
    select_template (locGet c6locs runnersKey) c6ag.value_stream =
      some ("runners/go.sh".data) ∧
    pathExistsR c6repo ("runners/go.sh".data) = true ∧
    isDirR c6repo ("runners/go.sh".data) = false ∧
    resolve_runner c6repo c6locs c6ag = none := by
  decide

/-- Claim C6 (amended): for every agent with a selected runner template,
if the resolved path (the substituted primary path, or the conventional
fallback `exports/<vs>/runners/<name>.py` when the primary is absent)
exists, then: a directory yields exactly one module operation whose
destination is the agent-named directory under the scripts root, and a
single unit file whose name carries the runner suffix `.py` yields exactly
one file operation (a unit file without the `.py` suffix yields none). -/
theorem resolve_runner_shape (r : Repo) (locs : Locations) (ag : AgentC)
    (tpl : Str)
    (hsel : select_template (locGet locs runnersKey) ag.value_stream =
      some tpl) :
    (pathExistsR r (substitute tpl ag.name ag.value_stream) = true →
      isDirR r (substitute tpl ag.name ag.value_stream) = true →
      resolve_runner r locs ag =
        some { source := substitute tpl ag.name ag.value_stream,
               destination := scriptsDest ++ ag.name }) ∧
    (pathExistsR r (substitute tpl ag.name ag.value_stream) = true →
      isDirR r (substitute tpl ag.name ag.value_stream) = false →
      pySuffix (substitute tpl ag.name ag.value_stream) = true →
      resolve_runner r locs ag =
        some { source := substitute tpl ag.name ag.value_stream,
               destination := scriptsDest ++
                 baseName (substitute tpl ag.name ag.value_stream) }) ∧
    (pathExistsR r (substitute tpl ag.name ag.value_stream) = false →
      pathExistsR r (exportsDir ++ ag.value_stream ++ slashRunnersDir ++
        ag.name ++ dotPy) = true →
      isDirR r (exportsDir ++ ag.value_stream ++ slashRunnersDir ++
        ag.name ++ dotPy) = true →
      resolve_runner r locs ag =
        some { source := exportsDir ++ ag.value_stream ++ slashRunnersDir ++
                 ag.name ++ dotPy,
               destination := scriptsDest ++ ag.name }) ∧
    (pathExistsR r (substitute tpl ag.name ag.value_stream) = false →
      pathExistsR r (exportsDir ++ ag.value_stream ++ slashRunnersDir ++
        ag.name ++ dotPy) = true →
      isDirR r (exportsDir ++ ag.value_stream ++ slashRunnersDir ++
        ag.name ++ dotPy) = false →
      pySuffix (exportsDir ++ ag.value_stream ++ slashRunnersDir ++
        ag.name ++ dotPy) = true →
      resolve_runner r locs ag =
        some { source := exportsDir ++ ag.value_stream ++ slashRunnersDir ++
                 ag.name ++ dotPy,
               destination := scriptsDest ++ baseName (exportsDir ++
                 ag.value_stream ++ slashRunnersDir ++ ag.name ++ dotPy) }) := by
  unfold resolve_runner
  rw [hsel]
  refine ⟨?_, ?_, ?_, ?_⟩
  · intro hex hdir
    simp [hex, hdir]
  · intro hex hdir hpy
    simp [hex, hdir, hpy]
  · intro hex hfb hdir
    simp only [List.append_assoc] at hfb hdir
    simp [hex, hfb, hdir]
  · intro hex hfb hdir hpy
    simp only [List.append_assoc] at hfb hdir hpy
    simp [hex, hfb, hdir, hpy]

def c6wrepo : Repo :=
  { files := [], dirs := ["runners/g".data], globFiles := fun _ _ => [] }
def c6wlocs : Locations :=
  [(runnersKey, TemplateVal.str ("runners/<agent-naam>".data))]
def c6wag : AgentC :=
  { name := "g".data, value_stream := "vs".data, runner_count := 1 }

theorem resolve_runner_shape_witness :
    resolve_runner c6wrepo c6wlocs c6wag =
      some { source := substitute ("runners/<agent-naam>".data) c6wag.name
               c6wag.value_stream,
             destination := scriptsDest ++ c6wag.name } :=
  (resolve_runner_shape c6wrepo c6wlocs c6wag
    ("runners/<agent-naam>".data) rfl).1 (by decide) (by decide)

/-! ### Claim C3: charter resolution tries both naming conventions -/

theorem strLead_nil {p : Str} (hp : p ≠ []) : strLead p [] = false := by
  cases p with
  | nil => exact absurd rfl hp
  | cons a q => rfl

def mdOnly : Str := "md".data

def c3repo : Repo :=
  { files := ["x.charter.y/charter.w.md".data], dirs := [],
    globFiles := fun _ _ => [] }
def c3locs : Locations :=
  [(chartersKey, TemplateVal.str ("x.charter.y/w.charter.md".data))]
def c3ag : AgentC := { name := "w".data, value_stream := "vs".data }

/-- Claim C3, counterexample: the substituted path
`x.charter.y/w.charter.md` follows the `<agent>.charter.md` convention, the
primary file is absent, and the alternate-convention file
`x.charter.y/charter.w.md` exists in the same directory — yet resolution
fails, because the fallback's global `str.replace(".charter.", ".")` also
rewrites the directory name, producing `x.y/charter.w.md`, which does not
exist. -/
theorem resolve_charter_fallback_cex :
    pathExistsR c3repo ("x.charter.y/w.charter.md".data) = false ∧
    pathExistsR c3repo ("x.charter.y/charter.w.md".data) = true ∧
    resolve_charter c3repo c3locs c3ag = none := by
  decide

/-- Claim C3 (amended): charter resolution tries both naming conventions
before declaring failure, provided the global string replacements of the
fallback touch only the filename: for a substituted path
`D/<agent>.charter.md`, no occurrence of `".charter."` may start before the
filename's, and no occurrence of `"<agent>.md"` may start before the final
one in the collapsed path; for a substituted path `D/charter.<agent>.md`,
the path must not contain `".charter."` and no occurrence of
`"charter.<agent>"` may start before the filename's.  Under these
conditions, if the primary file is absent and the alternate-convention file
exists, resolution returns that file with destination
`<charters-dir>/<agent>.md`. -/
theorem resolve_charter_fallback (r : Repo) (locs : Locations) (ag : AgentC)
    (t D : Str)
    (hsel : select_template (locGet locs chartersKey) ag.value_stream =
      some t) :
    ((substitute t ag.name ag.value_stream =
        D ++ slashStr ++ ag.name ++ dotCharterDot ++ mdOnly →
      pathExistsR r (D ++ slashStr ++ ag.name ++ dotCharterDot ++ mdOnly) =
        false →
      pathExistsR r (D ++ slashStr ++ charterDot ++ ag.name ++ dotMd) =
        true →
      (∀ i < (D ++ slashStr ++ ag.name).length,
        strLead dotCharterDot
          ((D ++ slashStr ++ ag.name ++ dotCharterDot ++ mdOnly).drop i) =
          false) →
      (∀ i < (D ++ slashStr).length,
        strLead (ag.name ++ dotMd)
          ((D ++ slashStr ++ ag.name ++ dotMd).drop i) = false) →
      resolve_charter r locs ag =
        some { source := D ++ slashStr ++ charterDot ++ ag.name ++ dotMd,
               destination := chartersDest ++ ag.name ++ dotMd }) ∧
     (substitute t ag.name ag.value_stream =
        D ++ slashStr ++ charterDot ++ ag.name ++ dotMd →
      containsSub (D ++ slashStr ++ charterDot ++ ag.name ++ dotMd)
        dotCharterDot = false →
      pathExistsR r (D ++ slashStr ++ charterDot ++ ag.name ++ dotMd) =
        false →
      pathExistsR r (D ++ slashStr ++ ag.name ++ dotCharter ++ dotMd) =
        true →
      (∀ i < (D ++ slashStr).length,
        strLead (charterDot ++ ag.name)
          ((D ++ slashStr ++ charterDot ++ ag.name ++ dotMd).drop i) =
          false) →
      resolve_charter r locs ag =
        some { source := D ++ slashStr ++ ag.name ++ dotCharter ++ dotMd,
               destination := chartersDest ++ ag.name ++ dotMd })) := by
  constructor
  · intro hsub hprim halt hfm1 hfm2
    unfold resolve_charter
    simp only [hsel, hsub]
    rw [if_neg (not_eq_true_of_false hprim)]
    have hA : D ++ slashStr ++ ag.name ++ dotCharterDot ++ mdOnly =
        (D ++ slashStr ++ ag.name) ++ (dotCharterDot ++ mdOnly) := by
      simp [List.append_assoc]
    have hcontains :
        containsSub (D ++ slashStr ++ ag.name ++ dotCharterDot ++ mdOnly)
          dotCharterDot = true := by
      refine (containsSub_iff (by decide)).mpr
        ⟨(D ++ slashStr ++ ag.name).length, ?_⟩
      rw [hA, drop_len_append_str]
      exact strLead_append dotCharterDot mdOnly
    rw [if_pos hcontains]
    have halt1 : replaceAll
        (D ++ slashStr ++ ag.name ++ dotCharterDot ++ mdOnly)
        dotCharterDot dotOnly = D ++ slashStr ++ ag.name ++ dotMd := by
      rw [replaceAll_single (by decide) hfm1
        (containsSub_false (by decide) (by decide))]
      rw [List.append_assoc]
      rfl
    rw [halt1]
    have hpne : ag.name ++ dotMd ≠ [] := by
      intro hc
      have hlen := congrArg List.length hc
      simp [dotMd] at hlen
    have hA2 : D ++ slashStr ++ ag.name ++ dotMd =
        (D ++ slashStr) ++ (ag.name ++ dotMd) ++ ([] : Str) := by
      simp [List.append_assoc]
    rw [hA2] at hfm2
    have halt2 : replaceAll (D ++ slashStr ++ ag.name ++ dotMd)
        (ag.name ++ dotMd) (charterDot ++ ag.name ++ dotMd) =
        D ++ slashStr ++ charterDot ++ ag.name ++ dotMd := by
      rw [hA2, replaceAll_single hpne hfm2
        (fun i => by rw [List.drop_nil]; exact strLead_nil hpne)]
      simp [List.append_assoc]
    rw [halt2, if_pos halt]
  · intro hsub hni hprim halt hfm
    unfold resolve_charter
    simp only [hsel, hsub]
    rw [if_neg (not_eq_true_of_false hprim),
      if_neg (not_eq_true_of_false hni)]
    have hA : D ++ slashStr ++ charterDot ++ ag.name ++ dotMd =
        (D ++ slashStr) ++ (charterDot ++ ag.name) ++ dotMd := by
      simp [List.append_assoc]
    have hA' : D ++ slashStr ++ charterDot ++ ag.name ++ dotMd =
        (D ++ slashStr) ++ (charterDot ++ (ag.name ++ dotMd)) := by
      simp [List.append_assoc]
    have hcontains :
        containsSub (D ++ slashStr ++ charterDot ++ ag.name ++ dotMd)
          charterDot = true := by
      refine (containsSub_iff (by decide)).mpr ⟨(D ++ slashStr).length, ?_⟩
      rw [hA', drop_len_append_str]
      exact strLead_append charterDot (ag.name ++ dotMd)
    rw [if_pos hcontains]
    rw [hA] at hfm
    have hpne : charterDot ++ ag.name ≠ [] := by
      intro hc
      have hlen := congrArg List.length hc
      simp [charterDot] at hlen
    have hshort : ∀ i, strLead (charterDot ++ ag.name) (dotMd.drop i) =
        false := by
      refine containsSub_false hpne (containsSub_short ?_)
      have h1 : dotMd.length = 3 := rfl
      have h2 : 8 ≤ (charterDot ++ ag.name).length := by
        simp [charterDot]
      omega
    have halt2 : replaceAll (D ++ slashStr ++ charterDot ++ ag.name ++ dotMd)
        (charterDot ++ ag.name) (ag.name ++ dotCharter) =
        D ++ slashStr ++ ag.name ++ dotCharter ++ dotMd := by
      rw [hA, replaceAll_single hpne hfm hshort]
      simp [List.append_assoc]
    rw [halt2, if_pos halt]

def c3wD : Str := "dir".data
def c3wrepo : Repo :=
  { files := ["dir/charter.w.md".data], dirs := [],
    globFiles := fun _ _ => [] }
def c3wlocs : Locations :=
  [(chartersKey, TemplateVal.str ("dir/<agent-naam>.charter.md".data))]
def c3wag : AgentC := { name := "w".data, value_stream := "vs".data }

theorem resolve_charter_fallback_witness :
    resolve_charter c3wrepo c3wlocs c3wag =
      some { source := c3wD ++ slashStr ++ charterDot ++ c3wag.name ++ dotMd,
             destination := chartersDest ++ c3wag.name ++ dotMd } :=
  (resolve_charter_fallback c3wrepo c3wlocs c3wag
    ("dir/<agent-naam>.charter.md".data) c3wD rfl).1
    (by decide) (by decide) (by decide) (by decide) (by decide)

def c9wop : FileOperation :=
  { source := [("sw" : String)], destination := [("dw" : String)] }

theorem execute_status_write_trace_witness :
    ((execOne [] c9wop).2.2 = [(execOne [] c9wop).2.1] ∨
      ((execOne [] c9wop).2.2 = [OpStatus.new, OpStatus.error] ∧
        (execOne [] c9wop).2.1 = OpStatus.error)) ∧
    (execOne [] c9wop).2.1 ≠ OpStatus.pending :=
  execute_status_write_trace [] c9wop

theorem execute_operations_stats_contract_witness :
    (execute_operations [] []).2.2 =
      [(keyNew, countStatus (execute_operations [] []).2.1 OpStatus.new),
       (keyUpdated, countStatus (execute_operations [] []).2.1
         OpStatus.updated),
       (keyUnchanged, countStatus (execute_operations [] []).2.1
         OpStatus.unchanged),
       (keyError, countStatus (execute_operations [] []).2.1 OpStatus.error),
       (keyModulesReplaced,
        countStatus (execute_operations [] []).2.1
          OpStatus.module_replaced)] :=
  execute_operations_stats_contract [] []
